import Mathlib

/-!
Shallow embedding of the OpenType decoders of this repository:
the cmap format-4 codepoint mapper (src/otf/cmap.rs) and the glyf
simple-glyph outline extractor (src/otf/glyf.rs).

Byte buffers are `List Nat` (each entry a byte value).  Machine integers
are modelled as `Nat`/`Int` with explicit reductions modulo `2^16`,
`2^32` and `2^64` exactly where the Rust code performs wrapping
(release-mode) arithmetic.  Fallible operations return `Option`; `none`
is the uniform DecodeFailure of the source (`Result<_, ()>` with `Err`).
-/

/-- Modelled from the spec: the cursor capability of `util::Jump` (the
`util` module is not part of the analysed sources).  `jump n` advances
the cursor by `n` bytes and fails distinctly on out-of-range access. -/
def jump (r : List Nat) (n : Nat) : Option (List Nat) :=
  if n ≤ r.length then some (List.drop n r) else none

/-- Modelled from the spec: a sequential one-byte read of the cursor
(`read_u8` of the external `byteorder` interface), failing at the end of
the buffer. -/
def readU8 : List Nat → Option (Nat × List Nat)
  | [] => none
  | b :: r => some (b, r)

/-- Modelled from the spec: a big-endian 16-bit unsigned read
(`read_u16::<BigEndian>`), failing when fewer than two bytes remain. -/
def readU16 : List Nat → Option (Nat × List Nat)
  | b0 :: b1 :: r => some (b0 * 256 + b1, r)
  | _ => none

/-- Modelled from the spec: a big-endian 32-bit unsigned read
(`read_u32::<BigEndian>`). -/
def readU32 : List Nat → Option (Nat × List Nat)
  | b0 :: b1 :: b2 :: b3 :: r =>
    some (((b0 * 256 + b1) * 256 + b2) * 256 + b3, r)
  | _ => none

/-- Modelled from the spec: a big-endian 16-bit signed read
(`read_i16::<BigEndian>`), producing the two's-complement value. -/
def readI16 (r : List Nat) : Option (Int × List Nat) :=
  match readU16 r with
  | none => none
  | some (v, r') =>
    if v < 32768 then some ((v : Int), r') else some ((v : Int) - 65536, r')

/-- Big-endian two-byte encoding of a 16-bit value, used to build
concrete tables for the theorems. -/
def encodeU16 (v : Nat) : List Nat :=
  [v / 256 % 256, v % 256]

/-- Concatenation of the big-endian encodings of a list of 16-bit
values: the layout of the parallel `u16` arrays of a format-4 subtable. -/
def concatEnc : List Nat → List Nat
  | [] => []
  | v :: t => encodeU16 v ++ concatEnc t

/-- Modelled from the spec: `batch::GlyphRange`, an inclusive range of
glyph identifiers, both `u16` (the `batch` module is not part of the
analysed sources).  Rust's field `end` is the Lean keyword, hence
`stop`. -/
structure GlyphRange where
  start : Nat
  stop : Nat
deriving DecidableEq, Repr

/-- Modelled from the spec: `charmap::CodepointRange`, an inclusive
range of Unicode scalar values, `u32` endpoints (the `charmap` module is
not part of the analysed sources). -/
structure CodepointRange where
  start : Nat
  stop : Nat
deriving DecidableEq, Repr

/-- The parallel-array cursors set up by
`glyph_ranges_for_codepoint_ranges` after decoding the format-4
subtable header (cmap.rs lines 84-96). -/
structure CmapCtx where
  segCount : Nat
  endCodes : List Nat
  startCodes : List Nat
  idDeltas : List Nat
  idRangeOffsets : List Nat
  glyphIds : List Nat
deriving DecidableEq, Repr

/-- The supported platform/encoding pairs of cmap.rs lines 58-63:
Unicode with any encoding, or Microsoft with Unicode BMP (1) or
Unicode UCS-4 (10). -/
def supportedPlatform (pid eid : Nat) : Bool :=
  pid = 0 || (pid = 3 && (eid = 1 || eid = 10))

/-- Version and platform validation of cmap.rs lines 46-68: reads the
version (must be 0), the table count, the platform and encoding ids of
the first subtable header, and the subtable offset; returns the cursor
repositioned at the subtable. -/
def cmapSubtable (table : List Nat) : Option (List Nat) :=
  match readU16 table with
  | none => none
  | some (version, r1) =>
    if version ≠ 0 then none else
    match readU16 r1 with
    | none => none
    | some (_, r2) =>
      match readU16 r2 with
      | none => none
      | some (pid, r3) =>
        match readU16 r3 with
        | none => none
        | some (eid, r4) =>
          if supportedPlatform pid eid then
            match readU32 r4 with
            | none => none
            | some (offset, _) => jump table offset
          else none

/-- Format check and subtable header reads of cmap.rs lines 71-82:
the format must be 4; then length, language, `segCountX2` (halved to
`seg_count`), searchRange, entrySelector and rangeShift are read.
Returns the cursor at the end-code array together with `seg_count`. -/
def cmapHeader (r : List Nat) : Option (List Nat × Nat) :=
  match readU16 r with
  | none => none
  | some (format, r1) =>
    if format ≠ 4 then none else
    match readU16 r1 with
    | none => none
    | some (_, r2) =>
      match readU16 r2 with
      | none => none
      | some (_, r3) =>
        match readU16 r3 with
        | none => none
        | some (segX2, r4) =>
          match readU16 r4 with
          | none => none
          | some (_, r5) =>
            match readU16 r5 with
            | none => none
            | some (_, r6) =>
              match readU16 r6 with
              | none => none
              | some (_, r7) => some (r7, segX2 / 2)

/-- The parallel-array cursor jumps of cmap.rs lines 89-96: the
start-code array sits `(seg_count + 1)` elements past the end-code
array (one reserved pad element), each further array `seg_count`
elements on. -/
def cmapArrays (endCodes : List Nat) (segCount : Nat) : Option CmapCtx :=
  match jump endCodes ((segCount + 1) * 2) with
  | none => none
  | some startCodes =>
    match jump startCodes (segCount * 2) with
    | none => none
    | some idDeltas =>
      match jump idDeltas (segCount * 2) with
      | none => none
      | some idRangeOffsets =>
        match jump idRangeOffsets (segCount * 2) with
        | none => none
        | some glyphIds =>
          some ⟨segCount, endCodes, startCodes, idDeltas, idRangeOffsets,
            glyphIds⟩

/-- Header validation and cursor setup of
`glyph_ranges_for_codepoint_ranges` (cmap.rs lines 44-96): version
check, platform/encoding check, seek to the subtable, format-4 check,
header reads, and the four parallel-array jumps. -/
def cmapSetup (table : List Nat) : Option CmapCtx :=
  match cmapSubtable table with
  | none => none
  | some r =>
    match cmapHeader r with
    | none => none
    | some (endCodes, segCount) => cmapArrays endCodes segCount

/-- Read the `i`-th 16-bit element of a parallel array: a fresh copy of
the array cursor jumped by `2*i` and read once, exactly as the segment
probes of cmap.rs (lines 121-123, 129-131, 154-165). -/
def readU16at (r : List Nat) (i : Nat) : Option Nat :=
  match jump r (2 * i) with
  | none => none
  | some r' =>
    match readU16 r' with
    | none => none
    | some (v, _) => some v

/-- The binary search of cmap.rs lines 116-139.  The source runs
`while low < high`; each iteration strictly shrinks `high - low`, so
supplying `high - low` as structural fuel is a faithful total encoding:
when the fuel reaches zero the span is already empty and the loop would
have exited with no match. -/
def bsearchGo (endCodes startCodes : List Nat) (cp : Nat) :
    Nat → Nat → Nat → Option (Option Nat)
  | 0, _, _ => some none
  | fuel + 1, low, high =>
    if low < high then
      match readU16at endCodes ((low + high) / 2) with
      | none => none
      | some ec =>
        if ec < cp then
          bsearchGo endCodes startCodes cp fuel ((low + high) / 2 + 1) high
        else
          match readU16at startCodes ((low + high) / 2) with
          | none => none
          | some sc =>
            if cp < sc then
              bsearchGo endCodes startCodes cp fuel low ((low + high) / 2)
            else some (some ((low + high) / 2))
    else some none

/-- Binary search over the whole segment array (initial bounds
`(0, seg_count)`, fuel equal to the initial span). -/
def findSegment (ctx : CmapCtx) (cp : Nat) : Option (Option Nat) :=
  bsearchGo ctx.endCodes ctx.startCodes cp ctx.segCount 0 ctx.segCount

/-- One lookup of the trailing glyph-id array (cmap.rs lines 187-203):
a fresh `glyph_ids` cursor jumped by `(id_range_offset + code_offset)*2`
bytes; a stored 0 yields the `MISSING_GLYPH` singleton, otherwise the
stored id plus `id_delta` wrapping at 16 bits. -/
def indirectOne (glyphIds : List Nat) (iro d co : Nat) : Option GlyphRange :=
  match jump glyphIds ((iro + co) * 2) with
  | none => none
  | some r =>
    match readU16 r with
    | none => none
    | some (g, _) =>
      if g = 0 then some ⟨0, 0⟩
      else some ⟨(g + d) % 65536, (g + d) % 65536⟩

/-- The `for code_offset in start..(end+1)` loop of cmap.rs line 187,
one singleton glyph range per code offset. -/
def mapIndirect (glyphIds : List Nat) (iro d : Nat) :
    List Nat → Option (List GlyphRange)
  | [] => some []
  | co :: rest =>
    match indirectOne glyphIds iro d co with
    | none => none
    | some g =>
      match mapIndirect glyphIds iro d rest with
      | none => none
      | some gs => some (g :: gs)

/-- One iteration of the `while codepoint_range.end >= start` loop of
cmap.rs lines 102-204, returning the new range start and the glyph
ranges emitted by this iteration.  All 16/32-bit arithmetic wraps as in
release-mode Rust: in particular the new start is
`(end_codepoint_range + 1)` reduced modulo `2^16` (line 168). -/
def lookupStep (ctx : CmapCtx) (s e : Nat) : Option (Nat × List GlyphRange) :=
  if 65535 < s then some ((s + 1) % 4294967296, [⟨0, 0⟩])
  else
    match findSegment ctx s with
    | none => none
    | some none => some ((s + 1) % 4294967296, [⟨0, 0⟩])
    | some (some idx) => do
      let sc ← readU16at ctx.startCodes idx
      let ec ← readU16at ctx.endCodes idx
      let iro ← readU16at ctx.idRangeOffsets idx
      let d ← readU16at ctx.idDeltas idx
      let ecp := min (e % 65536) ec
      let snew := (ecp + 1) % 65536
      let sco := (s + 65536 - sc) % 65536
      let eco := (ecp + 65536 - sc) % 65536
      if iro = 0 then
        some (snew, [⟨(s + d) % 65536, (ecp + d) % 65536⟩])
      else
        match mapIndirect ctx.glyphIds iro d
            (List.range' sco ((eco + 1) % 65536 - sco)) with
        | none => none
        | some gs => some (snew, gs)

/-- The per-range `while` loop of cmap.rs lines 102-204.  The source
loop has no intrinsic bound (the new start can move backwards through
wrapping), so it is given explicit fuel; a call of the source terminates
with a value exactly when some fuel yields `some`. -/
def lookupLoop (ctx : CmapCtx) : Nat → Nat → Nat → Option (List GlyphRange)
  | 0, s, e => if e < s then some [] else none
  | fuel' + 1, s, e =>
    if e < s then some []
    else
      match lookupStep ctx s e with
      | none => none
      | some (s', out) =>
        match lookupLoop ctx fuel' s' e with
        | none => none
        | some rest => some (out ++ rest)

/-- The outer `for codepoint_range in codepoint_ranges` loop of
cmap.rs line 100, concatenating the emitted glyph ranges in order. -/
def goRanges (ctx : CmapCtx) (fuel : Nat) :
    List CodepointRange → Option (List GlyphRange)
  | [] => some []
  | r :: rest =>
    match lookupLoop ctx fuel r.start r.stop with
    | none => none
    | some out =>
      match goRanges ctx fuel rest with
      | none => none
      | some restOut => some (out ++ restOut)

/-- `CmapTable::glyph_ranges_for_codepoint_ranges` (cmap.rs lines
42-208): header validation and cursor setup followed by the per-range
lookup loops.  `fuel` bounds the number of iterations of each inner
`while` loop. -/
def cmapGlyphRanges (table : List Nat) (ranges : List CodepointRange)
    (fuel : Nat) : Option (List GlyphRange) :=
  match cmapSetup table with
  | none => none
  | some ctx => goRanges ctx fuel ranges

/-- Number of codepoints covered by one returned glyph range, expanding
the inclusive range to its member count in 16-bit modular arithmetic
(a singleton, in particular a `MISSING_GLYPH` singleton, counts 1). -/
def coverage (g : GlyphRange) : Nat :=
  (g.stop + 65536 - g.start) % 65536 + 1

/-- Total codepoint count implied by a sequence of returned glyph
ranges. -/
def sumCoverage : List GlyphRange → Nat
  | [] => 0
  | g :: t => coverage g + sumCoverage t

/-- Number of codepoints in one requested codepoint range. -/
def requestedCount (r : CodepointRange) : Nat :=
  r.stop + 1 - r.start

/-- Total number of codepoints in the requested ranges. -/
def sumRequested : List CodepointRange → Nat
  | [] => 0
  | r :: t => requestedCount r + sumRequested t

/-- A concrete format-4 cmap table with the given parallel arrays: the
12-byte header selects the Unicode platform and places the subtable at
offset 12; the subtable header records `segCountX2 = 2 * ends.length`;
then the end-code array, the reserved pad, the start-code, id-delta and
id-range-offset arrays, and the trailing glyph-id array. -/
def mkCmapTable (ends starts deltas iros glyphs : List Nat) : List Nat :=
  [0, 0, 0, 1, 0, 0, 0, 0, 0, 0, 0, 12, 0, 4, 0, 0, 0, 0] ++
    encodeU16 (2 * ends.length) ++ [0, 0, 0, 0, 0, 0] ++
    concatEnc ends ++ [0, 0] ++ concatEnc starts ++ concatEnc deltas ++
    concatEnc iros ++ concatEnc glyphs

/-- A contour point as emitted by `GlyfTable::for_each_point`
(glyf.rs lines 29-34): absolute position in font units (i16 pair,
modelled as wrapped `Int`s), the on-curve flag, and the
first-point-in-contour flag. -/
structure GPoint where
  x : Int
  y : Int
  onCurve : Bool
  firstPointInContour : Bool
deriving DecidableEq, Repr

/-- Reduction of an integer to the two's-complement 16-bit range,
modelling release-mode wrapping of Rust `i16` addition and
subtraction. -/
def wrap16 (z : Int) : Int :=
  (z + 32768) % 65536 - 32768

/-- Reduction modulo `2^64`, modelling release-mode wrapping of Rust
`usize` arithmetic. -/
def usizeMod (n : Nat) : Nat :=
  n % 18446744073709551616

/-- The state of `FlagParser` (glyf.rs lines 187-225): the remaining
flag bytes, the current flag byte, and the pending repeat count. -/
structure FlagParserState where
  next : List Nat
  current : Nat
  repeatsLeft : Nat
deriving DecidableEq, Repr

/-- `FlagParser::next` (glyf.rs lines 206-224): consume one pending
repeat if any, otherwise load the next flag byte and, when its REPEAT
bit (bit 3) is set, the following repeat-count byte. -/
def flagParserNext (p : FlagParserState) : Option FlagParserState :=
  if p.repeatsLeft > 0 then
    some ⟨p.next, p.current, p.repeatsLeft - 1⟩
  else
    match p.next with
    | [] => none
    | c :: rest =>
      if Nat.testBit c 3 then
        match rest with
        | [] => none
        | n :: rest2 => some ⟨rest2, c, n⟩
      else some ⟨rest, c, 0⟩

/-- `FlagParser::new` (glyf.rs lines 195-203): start with the whole
flag buffer and immediately advance once.  The source indexes
`buffer[0]` before the first advance, which panics on an empty buffer;
an empty buffer is modelled as failure (the advance fails on it too). -/
def flagParserNew (buffer : List Nat) : Option FlagParserState :=
  flagParserNext ⟨buffer, 0, 0⟩

/-- `calculate_size_of_x_coordinates` (glyf.rs lines 164-185): walk the
flag runs until the 16-bit `points_left` counter reaches zero, adding
one byte per X_SHORT_VECTOR point and two per long-delta point to the
16-bit length accumulator, and return the length together with the
cursor now positioned at the x-coordinate array.  `points_left` is
decremented with wrapping 16-bit arithmetic exactly as release-mode
Rust does, so a repeat count exceeding the points left wraps the
counter.  Recursion is structural on the reader, which loses at least
one byte per iteration. -/
def calcXLen : Nat → Nat → List Nat → Option (Nat × List Nat)
  | acc, 0, r => some (acc, r)
  | _, _ + 1, [] => none
  | acc, pl + 1, f :: r =>
    if Nat.testBit f 3 then
      match r with
      | [] => none
      | c :: r2 =>
        let rc := c + 1
        let acc' :=
          if Nat.testBit f 1 then (acc + rc) % 65536
          else if ¬ Nat.testBit f 4 then (acc + rc * 2) % 65536
          else acc
        calcXLen acc' ((pl + 1 + 65536 - rc % 65536) % 65536) r2
    else
      let acc' :=
        if Nat.testBit f 1 then (acc + 1) % 65536
        else if ¬ Nat.testBit f 4 then (acc + 2) % 65536
        else acc
      calcXLen acc' (pl % 65536) r

/-- Decode one coordinate delta for one axis (glyf.rs lines 94-109):
with the short bit a single byte whose sign comes from the same bit;
without the short bit either zero (same bit set) or a full signed
16-bit value. -/
def readDelta (shortBit sameBit : Bool) (r : List Nat) :
    Option (Int × List Nat) :=
  if shortBit then
    match readU8 r with
    | none => none
    | some (b, r') =>
      if sameBit then some ((b : Int), r') else some (-(b : Int), r')
  else if sameBit then some (0, r)
  else readI16 r

/-- The cross-contour mutable state of the emission loop of glyf.rs
lines 84-142: flag parser, x- and y-coordinate cursors, the absolute
position accumulator (never reset between contours), and the 16-bit
running point index. -/
structure GlyfState where
  parser : FlagParserState
  xr : List Nat
  yr : List Nat
  px : Int
  py : Int
  pointIndex : Nat
deriving DecidableEq, Repr

/-- The per-contour point loop of glyf.rs lines 89-134, iterating the
stored points of one contour.  Returns the points delivered to the
sink (in order) and, on success, the updated state together with the
contour's starting position; `none` aborts emission with the points
already delivered kept.  A synthesized on-curve point at
`position + delta / 2` (truncating `i16` division) precedes the stored
point whenever the previous and current points are both off-curve. -/
def pointLoop : Nat → Nat → GlyfState → (Int × Int) → Bool →
    List GPoint × Option (GlyfState × (Int × Int))
  | 0, _, st, sp, _ => ([], some (st, sp))
  | rem + 1, cpi, st, sp, lastOff =>
    let f := st.parser.current
    match flagParserNext st.parser with
    | none => ([], none)
    | some parser' =>
      match readDelta (Nat.testBit f 1) (Nat.testBit f 4) st.xr with
      | none => ([], none)
      | some (dx, xr') =>
        match readDelta (Nat.testBit f 2) (Nat.testBit f 5) st.yr with
        | none => ([], none)
        | some (dy, yr') =>
          let synth : List GPoint :=
            if lastOff ∧ ¬ Nat.testBit f 0 then
              [⟨wrap16 (st.px + Int.tdiv dx 2), wrap16 (st.py + Int.tdiv dy 2),
                true, false⟩]
            else []
          let nx := wrap16 (st.px + dx)
          let ny := wrap16 (st.py + dy)
          let sp' := if cpi = 0 then (nx, ny) else sp
          let pt : GPoint := ⟨nx, ny, Nat.testBit f 0, cpi = 0⟩
          let st' : GlyfState :=
            ⟨parser', xr', yr', nx, ny, (st.pointIndex + 1) % 65536⟩
          let res := pointLoop rem (cpi + 1) st' sp' (¬ Nat.testBit f 0)
          (synth ++ pt :: res.1, res.2)

/-- The per-contour loop of glyf.rs lines 85-142: read the contour's
endpoint index, derive its point count with wrapping 16-bit arithmetic
(`endpoint - point_index + 1`), run the point loop with the per-contour
starting point and off-curve tracker reset, then emit the closing
on-curve point at the contour's starting position. -/
def contourLoop : Nat → List Nat → GlyfState → List GPoint × Bool
  | 0, _, _ => ([], true)
  | n + 1, er, st =>
    match readU16 er with
    | none => ([], false)
    | some (ep, er') =>
      let cpc := ((ep + 65536 - st.pointIndex % 65536) % 65536 + 1) % 65536
      let res := pointLoop cpc 0 st (0, 0) false
      match res.2 with
      | none => (res.1, false)
      | some (st', sp) =>
        let closing : GPoint := ⟨sp.1, sp.2, true, false⟩
        let rest := contourLoop n er' st'
        (res.1 ++ closing :: rest.1, rest.2)

/-- Modelled from the spec: the `loca` glyph-location resolver
(`otf::loca::LocaTable`, not part of the analysed sources), mapping a
glyph id to a byte offset of its record and failing on an out-of-range
glyph id. -/
def LocaTable : Type :=
  Nat → Option Nat

/-- The glyph-record resolution of `for_each_point` and
`bounding_rect` (glyf.rs lines 52-56): resolve the glyph id through the
`loca` collaborator, seek to the record, and read
`number_of_contours`. -/
def glyfRecord (glyf : List Nat) (loca : LocaTable) (glyphId : Nat) :
    Option (Int × List Nat) :=
  match loca glyphId with
  | none => none
  | some offset =>
    match jump glyf offset with
    | none => none
    | some r0 => readI16 r0

/-- The stream setup of `for_each_point` (glyf.rs lines 61-81), from
just after `number_of_contours`: skip the four bounding-box fields,
save the endpoints cursor, seek to the last endpoint index with a jump
of `size_of::<u16>() * (number_of_contours - 1)` computed in wrapping
`usize` arithmetic, read the point count (16-bit, plus one, wrapping),
skip the length-prefixed instruction block, size the x-coordinate
array by the first flag pass, build the flag parser, and position the
x- and y-coordinate cursors.  Returns the endpoints cursor and the
initial emission state. -/
def glyfStreams (noc : Int) (r1 : List Nat) :
    Option (List Nat × GlyfState) :=
  match jump r1 8 with
  | none => none
  | some r2 =>
    match jump r2 (usizeMod (2 * usizeMod
        (noc.toNat + 18446744073709551615))) with
    | none => none
    | some r3 =>
      match readU16 r3 with
      | none => none
      | some (npRaw, r4) =>
        match readU16 r4 with
        | none => none
        | some (instrLen, r5) =>
          match jump r5 instrLen with
          | none => none
          | some r6 =>
            match calcXLen 0 ((npRaw + 1) % 65536) r6 with
            | none => none
            | some (xLen, r7) =>
              match flagParserNew r6 with
              | none => none
              | some parser =>
                match jump r7 xLen with
                | none => none
                | some yReader => some (r2, ⟨parser, r7, yReader, 0, 0, 0⟩)

/-- `GlyfTable::for_each_point` (glyf.rs lines 50-145), with the sink
made explicit: returns the list of points delivered to the callback,
in order, together with a success flag (`false` is the DecodeFailure
of the source; points already delivered are kept).  A negative
`number_of_contours` (composite glyph) is rejected before any stream
setup. -/
def runForEachPoint (glyf : List Nat) (loca : LocaTable) (glyphId : Nat) :
    List GPoint × Bool :=
  match glyfRecord glyf loca glyphId with
  | none => ([], false)
  | some (noc, r1) =>
    if noc < 0 then ([], false)
    else
      match glyfStreams noc r1 with
      | none => ([], false)
      | some (er, st) => contourLoop noc.toNat er st

/-- `for_each_point` as a decode-or-fail result: the delivered points
on success, `none` on DecodeFailure. -/
def forEachPoint (glyf : List Nat) (loca : LocaTable) (glyphId : Nat) :
    Option (List GPoint) :=
  match runForEachPoint glyf loca glyphId with
  | (pts, true) => some pts
  | (_, false) => none

/-- The bounding rectangle of glyf.rs line 157: origin and size, the
size computed by `i16` subtraction (wrapping). -/
structure GRect where
  x : Int
  y : Int
  w : Int
  h : Int
deriving DecidableEq, Repr

/-- `GlyfTable::bounding_rect` (glyf.rs lines 147-158): resolve the
glyph offset, read `number_of_contours` (its value is not validated),
then the four bounding-box fields, and return the rectangle. -/
def boundingRect (glyf : List Nat) (loca : LocaTable) (glyphId : Nat) :
    Option GRect :=
  match loca glyphId with
  | none => none
  | some offset =>
    match jump glyf offset with
    | none => none
    | some r0 =>
      match readI16 r0 with
      | none => none
      | some (_, r1) =>
        match readI16 r1 with
        | none => none
        | some (xMin, r2) =>
          match readI16 r2 with
          | none => none
          | some (yMin, r3) =>
            match readI16 r3 with
            | none => none
            | some (xMax, r4) =>
              match readI16 r4 with
              | none => none
              | some (yMax, _) =>
                some ⟨xMin, yMin, wrap16 (xMax - xMin), wrap16 (yMax - yMin)⟩

/-- A cmap table whose first subtable (at offset 12) has format 5:
valid version and platform header, unsupported subtable format. -/
def badFormatCmapTable : List Nat :=
  [0, 0, 0, 1, 0, 0, 0, 0, 0, 0, 0, 12, 0, 5]

/-- The sentinel-segment table: one segment covering `[0, 0xFFFF]`
(the mandatory final format-4 segment whose end-code is the sentinel
`0xFFFF`), `id_range_offset = 0`, `id_delta = 7`. -/
def sentinelCmapTable : List Nat :=
  mkCmapTable [65535] [0] [7] [0] []

/-- The parallel-array cursors of `sentinelCmapTable`, written out. -/
def sentinelCtx : CmapCtx :=
  ⟨1, [255, 255, 0, 0, 0, 0, 0, 7, 0, 0], [0, 0, 0, 7, 0, 0],
    [0, 7, 0, 0], [0, 0], []⟩

/-- A format-4 table with unsorted segment arrays
(end-codes `[0xFFFE, 0xFFFF, 10, 0]`, start-codes `[0, 1, 6, 0]`, all
deltas and range offsets zero) on which the mapper terminates while
re-consuming codepoints after the 16-bit wrap of the range start. -/
def c1CexTable : List Nat :=
  mkCmapTable [65534, 65535, 10, 0] [0, 1, 6, 0] [0, 0, 0, 0] [0, 0, 0, 0] []

/-- One segment `[0, 10]` with `id_range_offset = 2`, `id_delta = 0`
and trailing glyph-id array `[7, 8, 9, 1, 1]`: the element read for
codepoint 0 separates index `range_offset + (c - start_code)` (the
code) from `range_offset/2 + (c - start_code)` (the claim). -/
def c2CexTable : List Nat :=
  mkCmapTable [10] [0] [0] [2] [7, 8, 9, 1, 1]

/-- A one-contour glyph record with two stored points, both off-curve:
the first with short negative deltas `(-x1, -y1)`, the second with
short positive deltas `(x2, y2)`.  Flag bytes: `0x06`
(X_SHORT | Y_SHORT) and `0x36` (X_SHORT | Y_SHORT | THIS_X_IS_SAME |
THIS_Y_IS_SAME). -/
def offCurvePairGlyf (x1 y1 x2 y2 : Nat) : List Nat :=
  [0, 1] ++ [0, 0, 0, 0, 0, 0, 0, 0] ++ [0, 1] ++ [0, 0] ++
    [6, 54] ++ [x1, x2] ++ [y1, y2]

/-- The flag-run region of `c6GlyfTable`: a first flag byte `0x39`
(ON_CURVE | REPEAT | THIS_X_IS_SAME | THIS_Y_IS_SAME) with repeat
count 1, i.e. a run of 2 points although only 1 point remains, followed
by filler runs (`0x18` = REPEAT | THIS_X_IS_SAME) consuming exactly the
65535 points of the wrapped counter. -/
def c6Flags : List Nat :=
  [57, 1] ++ (List.replicate 255 [24, 255]).flatten ++ [24, 254]

/-- A one-contour, one-point glyph record whose first flag run claims
2 points while only 1 remains: the 16-bit `points_left` counter of the
x-sizing pass wraps and the record nevertheless decodes. -/
def c6GlyfTable : List Nat :=
  [0, 1] ++ [0, 0, 0, 0, 0, 0, 0, 0] ++ [0, 0] ++ [0, 0] ++ c6Flags

/-- A glyph record whose `numberOfContours` field is 0, followed by a
zero bounding box. -/
def zeroContourGlyf : List Nat :=
  [0, 0, 0, 0, 0, 0, 0, 0, 0, 0]

/-- A glyph record whose `numberOfContours` field is -1 (a composite
glyph), with bounding box `(1, 2)` to `(3, 4)`. -/
def negContourGlyf : List Nat :=
  [255, 255, 0, 1, 0, 2, 0, 3, 0, 4]

/-- A concrete glyph-location resolver: glyph 0 lives at offset 0, any
other glyph id is out of range. -/
def locaZero : LocaTable :=
  fun g => if g = 0 then some 0 else none

/-! ### Basic cursor lemmas -/

theorem jump_zero (r : List Nat) : jump r 0 = some r := by
  simp [jump]

theorem jump_cons2 (a b : Nat) (l : List Nat) (n : Nat) :
    jump (a :: b :: l) (n + 2) = jump l n := by
  unfold jump
  by_cases h : n ≤ l.length
  · rw [if_pos h, if_pos (by simp; omega)]
    rfl
  · rw [if_neg h, if_neg (by simp; omega)]

theorem jump_append_len (A B : List Nat) (k : Nat) :
    jump (A ++ B) (A.length + k) = jump B k := by
  unfold jump
  by_cases h : k ≤ B.length
  · rw [if_pos h, if_pos (by simp; omega)]
    rw [List.drop_append]
  · rw [if_neg h, if_neg (by simp; omega)]

theorem concatEnc_length (vs : List Nat) :
    (concatEnc vs).length = 2 * vs.length := by
  induction vs with
  | nil => rfl
  | cons v t ih => simp [concatEnc, encodeU16, ih]; omega

theorem readU16at_cons2 (a b : Nat) (l : List Nat) (i : Nat) :
    readU16at (a :: b :: l) (i + 1) = readU16at l i := by
  unfold readU16at
  rw [show 2 * (i + 1) = 2 * i + 2 by ring, jump_cons2]

theorem readU16at_concatEnc (vs rest : List Nat) (i : Nat)
    (h : i < vs.length) :
    readU16at (concatEnc vs ++ rest) i = some (vs.getD i 0 % 65536) := by
  induction vs generalizing i with
  | nil => simp at h
  | cons v t ih =>
    have hshape : concatEnc (v :: t) ++ rest =
        (v / 256 % 256) :: (v % 256) :: (concatEnc t ++ rest) := by
      simp [concatEnc, encodeU16]
    rw [hshape]
    cases i with
    | zero =>
      unfold readU16at
      rw [show 2 * 0 = 0 by ring, jump_zero]
      simp [readU16, List.getD]
      omega
    | succ j =>
      rw [readU16at_cons2]
      simp at h
      rw [ih j (by omega)]
      rfl

theorem jump_cons_succ (a : Nat) (l : List Nat) (n : Nat) :
    jump (a :: l) (n + 1) = jump l n := by
  unfold jump
  by_cases h : n ≤ l.length
  · rw [if_pos h, if_pos (by simp; omega)]
    rfl
  · rw [if_neg h, if_neg (by simp; omega)]

theorem cmapSetup_mk (ends starts deltas iros glyphs : List Nat)
    (hn : ends.length < 32768) (hs : starts.length = ends.length)
    (hd : deltas.length = ends.length) (hi : iros.length = ends.length) :
    cmapSetup (mkCmapTable ends starts deltas iros glyphs) =
      some ⟨ends.length,
        concatEnc ends ++ 0 :: 0 :: (concatEnc starts ++ (concatEnc deltas ++
          (concatEnc iros ++ concatEnc glyphs))),
        concatEnc starts ++ (concatEnc deltas ++
          (concatEnc iros ++ concatEnc glyphs)),
        concatEnc deltas ++ (concatEnc iros ++ concatEnc glyphs),
        concatEnc iros ++ concatEnc glyphs,
        concatEnc glyphs⟩ := by
  unfold cmapSetup cmapSubtable cmapHeader cmapArrays mkCmapTable encodeU16
  simp only [List.cons_append, List.nil_append, List.append_assoc]
  simp only [readU16, readU32, supportedPlatform]
  norm_num
  simp only [jump_cons_succ, jump_zero, if_true]
  rw [show (2 * ends.length / 256 % 256 * 256 + 2 * ends.length % 256) / 2 =
    ends.length by omega]
  have j1 : jump (concatEnc ends ++ 0 :: 0 :: (concatEnc starts ++
      (concatEnc deltas ++ (concatEnc iros ++ concatEnc glyphs))))
      ((ends.length + 1) * 2) =
      some (concatEnc starts ++ (concatEnc deltas ++
        (concatEnc iros ++ concatEnc glyphs))) := by
    rw [show (ends.length + 1) * 2 = (concatEnc ends).length + 2 by
      rw [concatEnc_length]; ring]
    rw [jump_append_len]
    rw [show (2 : Nat) = 0 + 2 from rfl, jump_cons2, jump_zero]
  have j2 : jump (concatEnc starts ++ (concatEnc deltas ++
      (concatEnc iros ++ concatEnc glyphs))) (ends.length * 2) =
      some (concatEnc deltas ++ (concatEnc iros ++ concatEnc glyphs)) := by
    rw [show ends.length * 2 = (concatEnc starts).length + 0 by
      rw [concatEnc_length, hs]; ring]
    rw [jump_append_len, jump_zero]
  have j3 : jump (concatEnc deltas ++ (concatEnc iros ++ concatEnc glyphs))
      (ends.length * 2) =
      some (concatEnc iros ++ concatEnc glyphs) := by
    rw [show ends.length * 2 = (concatEnc deltas).length + 0 by
      rw [concatEnc_length, hd]; ring]
    rw [jump_append_len, jump_zero]
  have j4 : jump (concatEnc iros ++ concatEnc glyphs) (ends.length * 2) =
      some (concatEnc glyphs) := by
    rw [show ends.length * 2 = (concatEnc iros).length + 0 by
      rw [concatEnc_length, hi]; ring]
    rw [jump_append_len, jump_zero]
  simp only [j1, j2, j3, j4]

theorem bsearchGo_found (ec sc : List Nat) (E S : Nat → Nat) (n cp : Nat)
    (hE : ∀ i, i < n → readU16at ec i = some (E i))
    (hS : ∀ i, i < n → readU16at sc i = some (S i))
    (hEm : ∀ i j, i ≤ j → j < n → E i ≤ E j)
    (hSm : ∀ i j, i ≤ j → j < n → S i ≤ S j)
    (hdisj : ∀ i j, i < j → j < n → E i < S j)
    (i0 : Nat) (hi0 : i0 < n) (hlo : S i0 ≤ cp) (hhi : cp ≤ E i0) :
    ∀ fuel low high, low ≤ i0 → i0 < high → high ≤ n → high - low ≤ fuel →
      bsearchGo ec sc cp fuel low high = some (some i0) := by
  intro fuel
  induction fuel with
  | zero => intro low high h1 h2 h3 h4; omega
  | succ fuel ih =>
    intro low high h1 h2 h3 h4
    have hmidn : (low + high) / 2 < n := by omega
    simp only [bsearchGo, if_pos (show low < high by omega), hE _ hmidn,
      hS _ hmidn]
    by_cases hc1 : E ((low + high) / 2) < cp
    · rw [if_pos hc1]
      have hgt : (low + high) / 2 < i0 := by
        by_contra h
        push_neg at h
        have := hEm i0 ((low + high) / 2) h hmidn
        omega
      exact ih ((low + high) / 2 + 1) high (by omega) h2 h3 (by omega)
    · rw [if_neg hc1]
      by_cases hc2 : cp < S ((low + high) / 2)
      · rw [if_pos hc2]
        have hlt : i0 < (low + high) / 2 := by
          by_contra h
          push_neg at h
          have := hSm ((low + high) / 2) i0 h hi0
          omega
        exact ih low ((low + high) / 2) h1 hlt (by omega) (by omega)
      · rw [if_neg hc2]
        push_neg at hc1 hc2
        have heq : (low + high) / 2 = i0 := by
          rcases lt_trichotomy ((low + high) / 2) i0 with h | h | h
          · have := hdisj ((low + high) / 2) i0 h hi0
            omega
          · exact h
          · have := hdisj i0 ((low + high) / 2) h hmidn
            omega
        rw [heq]

theorem bsearchGo_notFound (ec sc : List Nat) (E S : Nat → Nat) (n cp : Nat)
    (hE : ∀ i, i < n → readU16at ec i = some (E i))
    (hS : ∀ i, i < n → readU16at sc i = some (S i))
    (hnone : ∀ i, i < n → ¬ (S i ≤ cp ∧ cp ≤ E i)) :
    ∀ fuel low high, high ≤ n → high - low ≤ fuel →
      bsearchGo ec sc cp fuel low high = some none := by
  intro fuel
  induction fuel with
  | zero =>
    intro low high h3 h4
    rfl
  | succ fuel ih =>
    intro low high h3 h4
    by_cases hlh : low < high
    · have hmidn : (low + high) / 2 < n := by omega
      simp only [bsearchGo, if_pos hlh, hE _ hmidn, hS _ hmidn]
      by_cases hc1 : E ((low + high) / 2) < cp
      · rw [if_pos hc1]
        exact ih ((low + high) / 2 + 1) high h3 (by omega)
      · rw [if_neg hc1]
        have hc2 : cp < S ((low + high) / 2) := by
          have := hnone ((low + high) / 2) hmidn
          omega
        rw [if_pos hc2]
        exact ih low ((low + high) / 2) (by omega) (by omega)
    · simp only [bsearchGo, if_neg hlh]

theorem bsearchGo_found_inv (ec sc : List Nat) (cp : Nat) :
    ∀ fuel low high idx,
      bsearchGo ec sc cp fuel low high = some (some idx) →
      ∃ e0 s0, readU16at ec idx = some e0 ∧ readU16at sc idx = some s0 ∧
        cp ≤ e0 ∧ s0 ≤ cp := by
  intro fuel
  induction fuel with
  | zero =>
    intro low high idx h
    simp [bsearchGo] at h
  | succ fuel ih =>
    intro low high idx h
    simp only [bsearchGo] at h
    split at h
    · split at h
      · exact absurd h (by simp)
      · rename_i e he
        split at h
        · exact ih _ _ _ h
        · split at h
          · exact absurd h (by simp)
          · rename_i s hs
            split at h
            · exact ih _ _ _ h
            · rename_i hc1 hc2
              have hidx : (low + high) / 2 = idx := by
                simpa using h
              rw [hidx] at he hs
              exact ⟨e, s, he, hs, by omega, by omega⟩
    · exact absurd h (by simp)

theorem indirectOne_singleton (g : List Nat) (iro d co : Nat) :
    ∀ gr, indirectOne g iro d co = some gr → gr.stop = gr.start := by
  intro gr h
  unfold indirectOne at h
  split at h
  · exact absurd h (by simp)
  · split at h
    · exact absurd h (by simp)
    · split at h
      · simp at h
        rw [← h]
      · simp at h
        rw [← h]

theorem mapIndirect_coverage (g : List Nat) (iro d : Nat) :
    ∀ l out, mapIndirect g iro d l = some out →
      sumCoverage out = l.length := by
  intro l
  induction l with
  | nil =>
    intro out h
    simp [mapIndirect] at h
    simp [h, sumCoverage]
  | cons co rest ih =>
    intro out h
    simp only [mapIndirect] at h
    split at h
    · exact absurd h (by simp)
    · rename_i gr hgr
      split at h
      · exact absurd h (by simp)
      · rename_i gs hgs
        simp only [Option.some.injEq] at h
        rw [← h]
        simp only [sumCoverage, List.length_cons]
        rw [ih gs hgs]
        have hsing := indirectOne_singleton g iro d co gr hgr
        unfold coverage
        rw [hsing]
        omega

theorem sumCoverage_append (a b : List GlyphRange) :
    sumCoverage (a ++ b) = sumCoverage a + sumCoverage b := by
  induction a with
  | nil => simp [sumCoverage]
  | cons g t ih => simp [sumCoverage, ih]; omega

theorem lookupStep_progress (ctx : CmapCtx) (s e : Nat)
    (hse : s ≤ e) (he : e ≤ 65534) :
    ∀ s' out, lookupStep ctx s e = some (s', out) →
      s < s' ∧ s' ≤ e + 1 ∧ sumCoverage out = s' - s := by
  intro s' out h
  unfold lookupStep at h
  rw [if_neg (by omega)] at h
  split at h
  · exact absurd h (by simp)
  · -- no segment matched: missing singleton, advance one
    simp only [Option.some.injEq, Prod.mk.injEq] at h
    obtain ⟨h1, h2⟩ := h
    constructor
    · omega
    constructor
    · omega
    · rw [← h2, ← h1]
      simp [sumCoverage, coverage]
      omega
  · rename_i idx hfind
    obtain ⟨e0, s0, hre, hrs, hcpe, hcps⟩ :=
      bsearchGo_found_inv ctx.endCodes ctx.startCodes s _ _ _ _ hfind
    rw [hrs, hre] at h
    simp only [Option.bind_eq_bind', Option.some_bind] at h
    rcases hiro : readU16at ctx.idRangeOffsets idx with _ | iro
    · rw [hiro] at h
      exact absurd h (by simp)
    rw [hiro] at h
    rcases hd : readU16at ctx.idDeltas idx with _ | d
    · rw [hd] at h
      exact absurd h (by simp)
    rw [hd] at h
    simp only [Option.bind_eq_bind', Option.some_bind] at h
    have hemod : e % 65536 = e := Nat.mod_eq_of_lt (by omega)
    rw [hemod] at h
    -- the clipped end of this iteration
    have hecp1 : s ≤ min e e0 := by omega
    have hecp2 : min e e0 ≤ 65534 := by omega
    have hsnew : (min e e0 + 1) % 65536 = min e e0 + 1 :=
      Nat.mod_eq_of_lt (by omega)
    rw [hsnew] at h
    by_cases hz : iro = 0
    · rw [if_pos hz] at h
      simp only [Option.some.injEq, Prod.mk.injEq] at h
      obtain ⟨h1, h2⟩ := h
      constructor
      · omega
      constructor
      · omega
      · rw [← h2, ← h1]
        simp [sumCoverage, coverage]
        omega
    · rw [if_neg hz] at h
      have hsco : (s + 65536 - s0) % 65536 = s - s0 :=
        by omega
      have heco : (min e e0 + 65536 - s0) % 65536 = min e e0 - s0 :=
        by omega
      rw [hsco, heco] at h
      have heco1 : (min e e0 - s0 + 1) % 65536 = min e e0 - s0 + 1 :=
        Nat.mod_eq_of_lt (by omega)
      rw [heco1] at h
      rcases hmi : mapIndirect ctx.glyphIds iro d
          (List.range' (s - s0) (min e e0 - s0 + 1 - (s - s0))) with _ | gs
      · rw [hmi] at h
        exact absurd h (by simp)
      rw [hmi] at h
      simp only [Option.some.injEq, Prod.mk.injEq] at h
      obtain ⟨h1, h2⟩ := h
      constructor
      · omega
      constructor
      · omega
      · rw [← h2, ← h1]
        rw [mapIndirect_coverage _ _ _ _ _ hmi]
        simp [List.length_range']
        omega

theorem lookupLoop_coverage (ctx : CmapCtx) (e : Nat) (he : e ≤ 65534) :
    ∀ fuel s out, lookupLoop ctx fuel s e = some out →
      sumCoverage out = e + 1 - s := by
  intro fuel
  induction fuel with
  | zero =>
    intro s out h
    unfold lookupLoop at h
    split at h
    · simp at h
      rw [h, sumCoverage]
      omega
    · exact absurd h (by simp)
  | succ fuel ih =>
    intro s out h
    unfold lookupLoop at h
    split at h
    · simp at h
      rw [h, sumCoverage]
      omega
    · rename_i hes
      split at h
      · exact absurd h (by simp)
      · rename_i s1 o1 hstep
        split at h
        · exact absurd h (by simp)
        · rename_i rest hrest
          simp only [Option.some.injEq] at h
          obtain ⟨hlt, hle, hcov⟩ :=
            lookupStep_progress ctx s e (by omega) he s1 o1 hstep
          rw [← h, sumCoverage_append, hcov, ih s1 rest hrest]
          omega

theorem goRanges_coverage (ctx : CmapCtx) :
    ∀ ranges fuel out,
      (∀ r ∈ ranges, r.start ≤ r.stop ∧ r.stop ≤ 65534) →
      goRanges ctx fuel ranges = some out →
      sumCoverage out = sumRequested ranges := by
  intro ranges
  induction ranges with
  | nil =>
    intro fuel out hr h
    simp [goRanges] at h
    simp [h, sumCoverage, sumRequested]
  | cons r rest ih =>
    intro fuel out hr h
    simp only [goRanges] at h
    split at h
    · exact absurd h (by simp)
    · rename_i o1 h1
      split at h
      · exact absurd h (by simp)
      · rename_i o2 h2
        simp only [Option.some.injEq] at h
        obtain ⟨hr1, hr2⟩ := hr r (by simp)
        rw [← h, sumCoverage_append]
        rw [lookupLoop_coverage ctx r.stop hr2 fuel r.start o1 h1]
        rw [ih fuel o2 (fun x hx => hr x (by simp [hx])) h2]
        simp [sumRequested, requestedCount]

theorem jump_length_le (r r' : List Nat) (n : Nat) (h : jump r n = some r') :
    r'.length ≤ r.length := by
  unfold jump at h
  split at h
  · simp only [Option.some.injEq] at h
    rw [← h]
    simp
  · exact absurd h (by simp)

theorem readU16_length_le (r : List Nat) (v : Nat) (r' : List Nat)
    (h : readU16 r = some (v, r')) : r'.length ≤ r.length := by
  unfold readU16 at h
  split at h
  · simp only [Option.some.injEq, Prod.mk.injEq] at h
    rw [← h.2]
    simp only [List.length_cons]
    omega
  · exact absurd h (by simp)

theorem readI16_length_le (r : List Nat) (v : Int) (r' : List Nat)
    (h : readI16 r = some (v, r')) : r'.length ≤ r.length := by
  unfold readI16 at h
  split at h
  · exact absurd h (by simp)
  · rename_i w rest hu
    split at h
    · simp only [Option.some.injEq, Prod.mk.injEq] at h
      rw [← h.2]
      exact readU16_length_le r w rest hu
    · simp only [Option.some.injEq, Prod.mk.injEq] at h
      rw [← h.2]
      exact readU16_length_le r w rest hu

/-- Claim C10: a cmap table passing header validation maps an empty
sequence of codepoint ranges to an empty sequence of glyph ranges. -/
theorem c10_empty_request (table : List Nat) (fuel : Nat)
    (h : (cmapSetup table).isSome = true) :
    cmapGlyphRanges table [] fuel = some [] := by
  unfold cmapGlyphRanges
  rcases hs : cmapSetup table with _ | ctx
  · rw [hs] at h
    simp at h
  · simp only [hs]
    rfl

theorem c10_empty_request_witness :
    ((cmapSetup sentinelCmapTable).isSome = true) ∧
      cmapGlyphRanges sentinelCmapTable [] 1 = some [] :=
  ⟨by decide, c10_empty_request sentinelCmapTable 1 (by decide)⟩

/-- Claim C9: a glyf record whose `numberOfContours` field is 0 makes
`for_each_point` fail before delivering any point to the sink: the
endpoint seek of `2 * (0 - 1)` bytes, computed in wrapping `usize`
arithmetic, is out of range for any real table. -/
theorem c9_zero_contours (glyf : List Nat) (loca : LocaTable) (gid : Nat)
    (off : Nat) (hloca : loca gid = some off)
    (r0 : List Nat) (hj : jump glyf off = some r0)
    (r1 : List Nat) (hread : readI16 r0 = some (0, r1))
    (hlen : glyf.length < 18446744073709551614) :
    runForEachPoint glyf loca gid = ([], false) := by
  have hrec : glyfRecord glyf loca gid = some (0, r1) := by
    unfold glyfRecord
    simp only [hloca, hj, hread]
  have hstr : glyfStreams 0 r1 = none := by
    unfold glyfStreams
    rcases hj8 : jump r1 8 with _ | r2
    · simp only [hj8]
    · simp only [hj8]
      have hlen2 : r2.length < 18446744073709551614 := by
        have l1 := jump_length_le glyf r0 off hj
        have l2 := readI16_length_le r0 0 r1 hread
        have l3 := jump_length_le r1 r2 8 hj8
        omega
      have harg : usizeMod (2 * usizeMod ((0 : Int).toNat +
          18446744073709551615)) = 18446744073709551614 := by
        norm_num [usizeMod]
      rw [harg]
      have hnone : jump r2 18446744073709551614 = none := by
        unfold jump
        rw [if_neg (by omega)]
      simp only [hnone]
  unfold runForEachPoint
  simp only [hrec, hstr]
  norm_num

theorem c9_zero_contours_witness :
    (locaZero 0 = some 0 ∧ jump zeroContourGlyf 0 = some zeroContourGlyf ∧
      readI16 zeroContourGlyf = some (0, [0, 0, 0, 0, 0, 0, 0, 0]) ∧
      zeroContourGlyf.length < 18446744073709551614) ∧
    runForEachPoint zeroContourGlyf locaZero 0 = ([], false) :=
  ⟨by decide,
    c9_zero_contours zeroContourGlyf locaZero 0 0 (by decide)
      zeroContourGlyf (by decide) [0, 0, 0, 0, 0, 0, 0, 0] (by decide)
      (by decide)⟩

/-- Claim C4 (amended): a subtable format other than 4 makes
`glyph_ranges_for_codepoint_ranges` fail; a negative
`number_of_contours` makes `for_each_point` fail with no point
delivered; `bounding_rect` performs no `number_of_contours` validation
and returns the decoded box for any record whose five header fields
read successfully. -/
theorem c4_amended :
    (∀ table r f rest ranges fuel, cmapSubtable table = some r →
      readU16 r = some (f, rest) → f ≠ 4 →
      cmapGlyphRanges table ranges fuel = none) ∧
    (∀ glyf loca gid off r0 noc r1, loca gid = some off →
      jump glyf off = some r0 → readI16 r0 = some (noc, r1) → noc < 0 →
      runForEachPoint glyf loca gid = ([], false)) ∧
    (∀ glyf loca gid off r0 noc r1 x1 r2 y1 r3 x2 r4 y2 r5,
      loca gid = some off → jump glyf off = some r0 →
      readI16 r0 = some (noc, r1) → readI16 r1 = some (x1, r2) →
      readI16 r2 = some (y1, r3) → readI16 r3 = some (x2, r4) →
      readI16 r4 = some (y2, r5) →
      boundingRect glyf loca gid =
        some ⟨x1, y1, wrap16 (x2 - x1), wrap16 (y2 - y1)⟩) := by
  refine ⟨?_, ?_, ?_⟩
  · intro table r f rest ranges fuel hsub hread hf
    unfold cmapGlyphRanges cmapSetup cmapHeader
    simp only [hsub, hread]
    rw [if_pos hf]
  · intro glyf loca gid off r0 noc r1 hloca hj hread hneg
    have hrec : glyfRecord glyf loca gid = some (noc, r1) := by
      unfold glyfRecord
      simp only [hloca, hj, hread]
    unfold runForEachPoint
    simp only [hrec]
    rw [if_pos hneg]
  · intro glyf loca gid off r0 noc r1 x1 r2 y1 r3 x2 r4 y2 r5
      hloca hj h0 h1 h2 h3 h4
    unfold boundingRect
    simp only [hloca, hj, h0, h1, h2, h3, h4]

theorem c4_amended_witness :
    (cmapSubtable badFormatCmapTable = some [0, 5] ∧
      readU16 [0, 5] = some (5, []) ∧ (5 : Nat) ≠ 4 ∧
      locaZero 0 = some 0 ∧ jump negContourGlyf 0 = some negContourGlyf ∧
      readI16 negContourGlyf = some (-1, [0, 1, 0, 2, 0, 3, 0, 4]) ∧
      ((-1 : Int) < 0)) ∧
    cmapGlyphRanges badFormatCmapTable [⟨3, 9⟩] 5 = none ∧
    runForEachPoint negContourGlyf locaZero 0 = ([], false) ∧
    boundingRect negContourGlyf locaZero 0 = some ⟨1, 2, 2, 2⟩ := by
  refine ⟨by decide, ?_, ?_, ?_⟩
  · exact c4_amended.1 badFormatCmapTable [0, 5] 5 [] [⟨3, 9⟩] 5
      (by decide) (by decide) (by decide)
  · exact c4_amended.2.1 negContourGlyf locaZero 0 0 negContourGlyf (-1)
      [0, 1, 0, 2, 0, 3, 0, 4] (by decide) (by decide) (by decide) (by decide)
  · have := c4_amended.2.2 negContourGlyf locaZero 0 0 negContourGlyf (-1)
      [0, 1, 0, 2, 0, 3, 0, 4] 1 [0, 2, 0, 3, 0, 4] 2 [0, 3, 0, 4] 3 [0, 4]
      4 [] (by decide) (by decide) (by decide) (by decide) (by decide)
      (by decide) (by decide)
    simpa using this

/-- Claim C4 counterexample: `bounding_rect` on a record whose
`numberOfContours` is -1 (a composite glyph) returns the decoded box,
not DecodeFailure as the claim states for both extractor operations. -/
theorem c4_counterexample :
    readI16 negContourGlyf = some (-1, [0, 1, 0, 2, 0, 3, 0, 4]) ∧
    boundingRect negContourGlyf locaZero 0 = some ⟨1, 2, 2, 2⟩ ∧
    some (GRect.mk 1 2 2 2) ≠ (none : Option GRect) := by
  decide

theorem calcXLen_repeat_step (acc pl c : Nat) (rest : List Nat) :
    calcXLen acc (pl + 1) (24 :: c :: rest) =
      calcXLen acc ((pl + 1 + 65536 - (c + 1) % 65536) % 65536) rest :=
  rfl

theorem calcXLen_first_step (rest : List Nat) :
    calcXLen 0 1 (57 :: 1 :: rest) = calcXLen 0 65535 rest :=
  rfl

theorem calcXLen_filler :
    ∀ k, k ≤ 255 →
      calcXLen 0 (256 * k + 255)
        ((List.replicate k ([24, 255] : List Nat)).flatten ++ [24, 254]) =
      some (0, []) := by
  intro k
  induction k with
  | zero =>
    intro _
    decide
  | succ k ih =>
    intro hk
    have hsh : (List.replicate (k + 1) ([24, 255] : List Nat)).flatten ++
        [24, 254] =
        24 :: 255 ::
          ((List.replicate k ([24, 255] : List Nat)).flatten ++ [24, 254]) := by
      simp only [List.replicate_succ, List.flatten_cons, List.cons_append,
        List.nil_append, List.append_assoc]
    rw [hsh]
    rw [show 256 * (k + 1) + 255 = (256 * k + 510) + 1 by ring]
    rw [calcXLen_repeat_step]
    rw [show (256 * k + 510 + 1 + 65536 - (255 + 1) % 65536) % 65536 =
      256 * k + 255 by omega]
    exact ih (by omega)

theorem calcXLen_c6Flags : calcXLen 0 1 c6Flags = some (0, []) := by
  have hsh : c6Flags = 57 :: 1 ::
      ((List.replicate 255 ([24, 255] : List Nat)).flatten ++ [24, 254]) := by
    simp only [c6Flags, List.cons_append, List.nil_append, List.append_assoc]
  rw [hsh, calcXLen_first_step]
  rw [show (65535 : Nat) = 256 * 255 + 255 by norm_num]
  exact calcXLen_filler 255 (le_refl 255)

theorem c6_general (fil : List Nat)
    (hcalc : calcXLen 0 1 (57 :: 1 :: fil) = some (0, [])) :
    runForEachPoint
      (0 :: 1 :: 0 :: 0 :: 0 :: 0 :: 0 :: 0 :: 0 :: 0 :: 0 :: 0 :: 0 :: 0 ::
        57 :: 1 :: fil) locaZero 0 =
      ([⟨0, 0, true, true⟩, ⟨0, 0, true, false⟩], true) := by
  have hloca : locaZero 0 = some 0 := rfl
  have hj0 : jump (0 :: 1 :: 0 :: 0 :: 0 :: 0 :: 0 :: 0 :: 0 :: 0 :: 0 :: 0 ::
      0 :: 0 :: 57 :: 1 :: fil) 0 =
      some (0 :: 1 :: 0 :: 0 :: 0 :: 0 :: 0 :: 0 :: 0 :: 0 :: 0 :: 0 :: 0 ::
        0 :: 57 :: 1 :: fil) := jump_zero _
  have hri : readI16 (0 :: 1 :: 0 :: 0 :: 0 :: 0 :: 0 :: 0 :: 0 :: 0 :: 0 ::
      0 :: 0 :: 0 :: 57 :: 1 :: fil) =
      some (1, 0 :: 0 :: 0 :: 0 :: 0 :: 0 :: 0 :: 0 :: 0 :: 0 :: 0 :: 0 ::
        57 :: 1 :: fil) := rfl
  have hj8 : jump (0 :: 0 :: 0 :: 0 :: 0 :: 0 :: 0 :: 0 :: 0 :: 0 :: 0 ::
      0 :: 57 :: 1 :: fil) 8 = some (0 :: 0 :: 0 :: 0 :: 57 :: 1 :: fil) := by
    simp only [jump_cons_succ, jump_zero]
  have husz : usizeMod (2 * usizeMod (Int.toNat 1 + 18446744073709551615)) =
      0 := by
    norm_num [usizeMod]
  have hru1 : readU16 (0 :: 0 :: 0 :: 0 :: 57 :: 1 :: fil) =
      some (0, 0 :: 0 :: 57 :: 1 :: fil) := rfl
  have hru2 : readU16 (0 :: 0 :: 57 :: 1 :: fil) =
      some (0, 57 :: 1 :: fil) := rfl
  have hparser : flagParserNew (57 :: 1 :: fil) =
      some ⟨fil, 57, 1⟩ := rfl
  have hrec : glyfRecord (0 :: 1 :: 0 :: 0 :: 0 :: 0 :: 0 :: 0 :: 0 :: 0 ::
      0 :: 0 :: 0 :: 0 :: 57 :: 1 :: fil) locaZero 0 =
      some (1, 0 :: 0 :: 0 :: 0 :: 0 :: 0 :: 0 :: 0 :: 0 :: 0 :: 0 :: 0 ::
        57 :: 1 :: fil) := by
    unfold glyfRecord
    simp only [hloca, hj0, hri]
  have hstr : glyfStreams 1 (0 :: 0 :: 0 :: 0 :: 0 :: 0 :: 0 :: 0 :: 0 ::
      0 :: 0 :: 0 :: 57 :: 1 :: fil) =
      some (0 :: 0 :: 0 :: 0 :: 57 :: 1 :: fil,
        ⟨⟨fil, 57, 1⟩, [], [], 0, 0, 0⟩) := by
    unfold glyfStreams
    simp only [hj8, husz, jump_zero, hru1, hru2]
    norm_num
    rw [hcalc]
    simp only [hparser, jump_zero]
  unfold runForEachPoint
  simp only [hrec, hstr]
  rw [if_neg (by norm_num)]
  rw [show Int.toNat 1 = 1 from rfl]
  unfold contourLoop
  simp only [hru1]
  norm_num
  have hnext : flagParserNext ⟨fil, 57, 1⟩ = some ⟨fil, 57, 0⟩ := rfl
  have hrd : readDelta false true ([] : List Nat) = some (0, []) := rfl
  have hb0 : Nat.testBit 57 0 = true := by decide
  have hb1 : Nat.testBit 57 1 = false := by decide
  have hb2 : Nat.testBit 57 2 = false := by decide
  have hb4 : Nat.testBit 57 4 = true := by decide
  have hb5 : Nat.testBit 57 5 = true := by decide
  have hpl : pointLoop 1 0 ⟨⟨fil, 57, 1⟩, [], [], 0, 0, 0⟩ 0 false =
      ([⟨0, 0, true, true⟩],
        some (⟨⟨fil, 57, 0⟩, [], [], 0, 0, 1⟩, 0)) := by
    simp only [pointLoop, hnext, hb0, hb1, hb2, hb4, hb5, hrd]
    norm_num [wrap16]
  have hcl0 : contourLoop 0 (0 :: 0 :: 57 :: 1 :: fil)
      ⟨⟨fil, 57, 0⟩, [], [], 0, 0, 1⟩ = ([], true) := rfl
  simp only [hpl, hcl0]
  simp

/-- Claim C6: the one-point glyph record `c6GlyfTable`, whose first
flag run spans 2 points while only 1 point remains (a flag-run/point
count inconsistency), decodes successfully — the 16-bit `points_left`
counter of the x-sizing pass wraps around — and the stored point and
closing point of the inconsistent contour are delivered to the sink,
instead of the decode failure with no delivered points that the claim
requires. -/
theorem c6_inconsistent_flags_decode_succeeds :
    runForEachPoint c6GlyfTable locaZero 0 =
      ([⟨0, 0, true, true⟩, ⟨0, 0, true, false⟩], true) := by
  have hflags : c6Flags = 57 :: 1 ::
      ((List.replicate 255 ([24, 255] : List Nat)).flatten ++ [24, 254]) := by
    simp only [c6Flags, List.cons_append, List.nil_append, List.append_assoc]
  have hsh : c6GlyfTable = 0 :: 1 :: 0 :: 0 :: 0 :: 0 :: 0 :: 0 :: 0 :: 0 ::
      0 :: 0 :: 0 :: 0 :: 57 :: 1 ::
      ((List.replicate 255 ([24, 255] : List Nat)).flatten ++ [24, 254]) := by
    simp only [c6GlyfTable, hflags, List.cons_append, List.nil_append,
      List.append_assoc]
  rw [hsh]
  apply c6_general
  rw [← hflags]
  exact calcXLen_c6Flags

/-- Claim C5: on the sentinel-segment table, the query for codepoint
0xFFFF never returns: after the match clips at the sentinel end-code
0xFFFF, the next range start `(0xFFFF + 1)` wraps to 0 in 16-bit
arithmetic and the loop re-processes `[0, 0xFFFF]` forever.  No amount
of fuel makes the call produce a result. -/
theorem c5_sentinel_query_diverges :
    ∀ fuel, cmapGlyphRanges sentinelCmapTable [⟨65535, 65535⟩] fuel =
      none := by
  have hsetup : cmapSetup sentinelCmapTable = some sentinelCtx := by decide
  have hstep0 : lookupStep sentinelCtx 0 65535 = some (0, [⟨7, 6⟩]) := by
    decide
  have hstepF : lookupStep sentinelCtx 65535 65535 = some (0, [⟨6, 6⟩]) := by
    decide
  have hloop0 : ∀ f, lookupLoop sentinelCtx f 0 65535 = none := by
    intro f
    induction f with
    | zero => decide
    | succ f ih =>
      unfold lookupLoop
      rw [if_neg (by omega)]
      simp only [hstep0, ih]
  have hloopF : ∀ f, lookupLoop sentinelCtx f 65535 65535 = none := by
    intro f
    cases f with
    | zero => decide
    | succ f =>
      unfold lookupLoop
      rw [if_neg (by omega)]
      simp only [hstepF, hloop0 f]
  intro fuel
  unfold cmapGlyphRanges
  simp only [hsetup]
  unfold goRanges
  simp only [hloopF fuel]

theorem singleSeg_find (EC SC : List Nat) (e0 s0 c : Nat)
    (hE : readU16at EC 0 = some e0) (hS : readU16at SC 0 = some s0)
    (h1 : s0 ≤ c) (h2 : c ≤ e0) :
    bsearchGo EC SC c 1 0 1 = some (some 0) := by
  unfold bsearchGo
  rw [if_pos (by omega)]
  rw [show ((0 + 1) / 2 : Nat) = 0 by norm_num]
  simp only [hE, hS]
  rw [if_neg (by omega), if_neg (by omega)]

/-- Claim C7 (amended): on a table with the single all-covering segment
`[0, 0xFFFF]`, `id_range_offset = 0` and `id_delta = d`, a requested
codepoint range `[s, e]` with `e ≤ 0xFFFE` is returned as the single
glyph range `[(s + d) mod 2^16, (e + d) mod 2^16]`; the single-codepoint
mapping of the claim is the instance `s = e = c`.  The claim's boundary
case `c = 0xFFFF` is excluded: there the call diverges (the range-start
wrap), see the counterexample. -/
theorem c7_amended (d s e fuel : Nat) (hd : d < 65536) (hse : s ≤ e)
    (he : e ≤ 65534) :
    cmapGlyphRanges (mkCmapTable [65535] [0] [d] [0] []) [⟨s, e⟩]
      (fuel + 1) = some [⟨(s + d) % 65536, (e + d) % 65536⟩] := by
  have hsetup : cmapSetup (mkCmapTable [65535] [0] [d] [0] []) =
      some ⟨1,
        concatEnc [65535] ++ 0 :: 0 :: (concatEnc [0] ++ (concatEnc [d] ++
          (concatEnc [0] ++ concatEnc []))),
        concatEnc [0] ++ (concatEnc [d] ++ (concatEnc [0] ++ concatEnc [])),
        concatEnc [d] ++ (concatEnc [0] ++ concatEnc []),
        concatEnc [0] ++ concatEnc [],
        concatEnc []⟩ := by
    have := cmapSetup_mk [65535] [0] [d] [0] []
      (by norm_num) (by norm_num) (by norm_num) (by norm_num)
    simpa using this
  have hE : readU16at (concatEnc [65535] ++ 0 :: 0 :: (concatEnc [0] ++
      (concatEnc [d] ++ (concatEnc [0] ++ concatEnc [])))) 0 =
      some 65535 := by
    rw [readU16at_concatEnc [65535] _ 0 (by norm_num)]
    norm_num
  have hS : readU16at (concatEnc [0] ++ (concatEnc [d] ++
      (concatEnc [0] ++ concatEnc []))) 0 = some 0 := by
    rw [readU16at_concatEnc [0] _ 0 (by norm_num)]
    rfl
  have hD : readU16at (concatEnc [d] ++ (concatEnc [0] ++ concatEnc [])) 0 =
      some d := by
    rw [readU16at_concatEnc [d] _ 0 (by norm_num)]
    simp [List.getD]
    omega
  have hI : readU16at (concatEnc [0] ++ concatEnc []) 0 = some 0 := by
    rw [readU16at_concatEnc [0] _ 0 (by norm_num)]
    rfl
  have hstep : lookupStep ⟨1,
      concatEnc [65535] ++ 0 :: 0 :: (concatEnc [0] ++ (concatEnc [d] ++
        (concatEnc [0] ++ concatEnc []))),
      concatEnc [0] ++ (concatEnc [d] ++ (concatEnc [0] ++ concatEnc [])),
      concatEnc [d] ++ (concatEnc [0] ++ concatEnc []),
      concatEnc [0] ++ concatEnc [],
      concatEnc []⟩ s e =
      some (e + 1, [⟨(s + d) % 65536, (e + d) % 65536⟩]) := by
    unfold lookupStep findSegment
    rw [if_neg (by omega)]
    simp only
    rw [singleSeg_find _ _ 65535 0 s hE hS (by omega) (by omega)]
    simp only [hS, hE, hD, hI, Option.bind_eq_bind', Option.some_bind]
    rw [if_pos trivial]
    rw [Nat.mod_eq_of_lt (show e < 65536 by omega)]
    rw [min_eq_left (by omega)]
    rw [Nat.mod_eq_of_lt (show e + 1 < 65536 by omega)]
  unfold cmapGlyphRanges
  simp only [hsetup]
  unfold goRanges
  simp only
  unfold lookupLoop
  rw [if_neg (by omega)]
  simp only [hstep]
  have hrest : lookupLoop ⟨1,
      concatEnc [65535] ++ 0 :: 0 :: (concatEnc [0] ++ (concatEnc [d] ++
        (concatEnc [0] ++ concatEnc []))),
      concatEnc [0] ++ (concatEnc [d] ++ (concatEnc [0] ++ concatEnc [])),
      concatEnc [d] ++ (concatEnc [0] ++ concatEnc []),
      concatEnc [0] ++ concatEnc [],
      concatEnc []⟩ fuel (e + 1) e = some [] := by
    cases fuel with
    | zero => simp [lookupLoop]
    | succ f =>
      unfold lookupLoop
      rw [if_pos (by omega)]
  simp only [hrest]
  have hnil : goRanges ⟨1,
      concatEnc [65535] ++ 0 :: 0 :: (concatEnc [0] ++ (concatEnc [d] ++
        (concatEnc [0] ++ concatEnc []))),
      concatEnc [0] ++ (concatEnc [d] ++ (concatEnc [0] ++ concatEnc [])),
      concatEnc [d] ++ (concatEnc [0] ++ concatEnc []),
      concatEnc [0] ++ concatEnc [],
      concatEnc []⟩ (fuel + 1) [] = some [] := rfl
  simp only [hnil]
  simp

theorem c7_amended_witness :
    ((7 : Nat) < 65536 ∧ (2 : Nat) ≤ 5 ∧ (5 : Nat) ≤ 65534) ∧
    cmapGlyphRanges (mkCmapTable [65535] [0] [7] [0] []) [⟨2, 5⟩] 1 =
      some [⟨9, 12⟩] := by
  refine ⟨by decide, ?_⟩
  have := c7_amended 7 2 5 0 (by decide) (by decide) (by decide)
  norm_num at this
  exact this

/-- Claim C7 counterexample: on the single all-covering segment with
`id_delta = 7`, the claim says mapping codepoint 0xFFFF yields glyph
`(0xFFFF + 7) mod 2^16 = 6`; the call instead fails to return (the
16-bit wrap of the next range start sends the loop back to codepoint 0,
whose step returns start 0 again — a self-loop, so no fuel suffices;
shown here at fuel 50 together with the looping step). -/
theorem c7_counterexample :
    cmapGlyphRanges (mkCmapTable [65535] [0] [7] [0] []) [⟨65535, 65535⟩]
      50 = none ∧
    lookupStep sentinelCtx 0 65535 = some (0, [⟨7, 6⟩]) ∧
    (none : Option (List GlyphRange)) ≠ some [⟨6, 6⟩] := by
  refine ⟨by decide, by decide, by decide⟩

/-- Claim C2 (amended): for a matched segment `[s0, e0]` with non-zero
range-offset `k`, each codepoint `c` of the clipped sub-range is looked
up in the trailing glyph-id array at element index `k + (c - s0)` — the
raw `id_range_offset` value plus the code offset, not
`id_range_offset / 2 + (c - s0)` as the claim stated — with a stored 0
emitted as the `MISSING_GLYPH` singleton and anything else emitted as
the stored id plus `id_delta` modulo `2^16`. -/
theorem indirectOne_eq_readU16at (g : List Nat) (iro d co : Nat) :
    indirectOne g iro d co =
      match readU16at g (iro + co) with
      | none => none
      | some v => some (if v = 0 then ⟨0, 0⟩
          else ⟨(v + d) % 65536, (v + d) % 65536⟩) := by
  unfold indirectOne readU16at
  rw [show (iro + co) * 2 = 2 * (iro + co) by ring]
  rcases hj : jump g (2 * (iro + co)) with _ | rr
  · rfl
  · rcases hr : readU16 rr with _ | p
    · simp only [hr]
    · rcases p with ⟨v, rest2⟩
      simp only [hr]
      by_cases hv : v = 0 <;> simp [hv]

theorem c2_amended (e0 s0 k d c : Nat) (gs : List Nat) (fuel : Nat)
    (he0 : e0 ≤ 65534) (hs0 : s0 ≤ c) (hc : c ≤ e0) (hk : k ≠ 0)
    (hk2 : k < 65536) (hd : d < 65536) (hs0b : s0 < 65536)
    (hgs : ∀ i, i < gs.length → gs.getD i 0 < 65536)
    (hlen : k + (c - s0) < gs.length) :
    cmapGlyphRanges (mkCmapTable [e0] [s0] [d] [k] gs) [⟨c, c⟩]
      (fuel + 1) =
      some [if gs.getD (k + (c - s0)) 0 = 0 then ⟨0, 0⟩
        else ⟨(gs.getD (k + (c - s0)) 0 + d) % 65536,
          (gs.getD (k + (c - s0)) 0 + d) % 65536⟩] := by
  have hsetup : cmapSetup (mkCmapTable [e0] [s0] [d] [k] gs) =
      some ⟨1,
        concatEnc [e0] ++ 0 :: 0 :: (concatEnc [s0] ++ (concatEnc [d] ++
          (concatEnc [k] ++ concatEnc gs))),
        concatEnc [s0] ++ (concatEnc [d] ++ (concatEnc [k] ++ concatEnc gs)),
        concatEnc [d] ++ (concatEnc [k] ++ concatEnc gs),
        concatEnc [k] ++ concatEnc gs,
        concatEnc gs⟩ := by
    have := cmapSetup_mk [e0] [s0] [d] [k] gs
      (by norm_num) (by norm_num) (by norm_num) (by norm_num)
    simpa using this
  have hE : readU16at (concatEnc [e0] ++ 0 :: 0 :: (concatEnc [s0] ++
      (concatEnc [d] ++ (concatEnc [k] ++ concatEnc gs)))) 0 =
      some e0 := by
    rw [readU16at_concatEnc [e0] _ 0 (by norm_num)]
    simp [List.getD]
    omega
  have hS : readU16at (concatEnc [s0] ++ (concatEnc [d] ++
      (concatEnc [k] ++ concatEnc gs))) 0 = some s0 := by
    rw [readU16at_concatEnc [s0] _ 0 (by norm_num)]
    simp [List.getD]
    omega
  have hD : readU16at (concatEnc [d] ++ (concatEnc [k] ++ concatEnc gs)) 0 =
      some d := by
    rw [readU16at_concatEnc [d] _ 0 (by norm_num)]
    simp [List.getD]
    omega
  have hI : readU16at (concatEnc [k] ++ concatEnc gs) 0 = some k := by
    rw [readU16at_concatEnc [k] _ 0 (by norm_num)]
    simp [List.getD]
    omega
  have hone : indirectOne (concatEnc gs) k d (c - s0) =
      some (if gs.getD (k + (c - s0)) 0 = 0 then ⟨0, 0⟩
        else ⟨(gs.getD (k + (c - s0)) 0 + d) % 65536,
          (gs.getD (k + (c - s0)) 0 + d) % 65536⟩) := by
    have hread := readU16at_concatEnc gs [] (k + (c - s0)) hlen
    rw [List.append_nil] at hread
    rw [Nat.mod_eq_of_lt (hgs _ hlen)] at hread
    rw [indirectOne_eq_readU16at, hread]
  have hmap : mapIndirect (concatEnc gs) k d [c - s0] =
      some [if gs.getD (k + (c - s0)) 0 = 0 then ⟨0, 0⟩
        else ⟨(gs.getD (k + (c - s0)) 0 + d) % 65536,
          (gs.getD (k + (c - s0)) 0 + d) % 65536⟩] := by
    unfold mapIndirect
    simp only [hone]
    rfl
  have hstep : lookupStep ⟨1,
      concatEnc [e0] ++ 0 :: 0 :: (concatEnc [s0] ++ (concatEnc [d] ++
        (concatEnc [k] ++ concatEnc gs))),
      concatEnc [s0] ++ (concatEnc [d] ++ (concatEnc [k] ++ concatEnc gs)),
      concatEnc [d] ++ (concatEnc [k] ++ concatEnc gs),
      concatEnc [k] ++ concatEnc gs,
      concatEnc gs⟩ c c =
      some (c + 1, [if gs.getD (k + (c - s0)) 0 = 0 then ⟨0, 0⟩
        else ⟨(gs.getD (k + (c - s0)) 0 + d) % 65536,
          (gs.getD (k + (c - s0)) 0 + d) % 65536⟩]) := by
    unfold lookupStep findSegment
    rw [if_neg (by omega)]
    simp only
    rw [singleSeg_find _ _ e0 s0 c hE hS (by omega) (by omega)]
    simp only [hS, hE, hD, hI, Option.bind_eq_bind', Option.some_bind]
    rw [if_neg hk]
    rw [Nat.mod_eq_of_lt (show c < 65536 by omega)]
    rw [min_eq_left (by omega)]
    rw [Nat.mod_eq_of_lt (show c + 1 < 65536 by omega)]
    rw [show (c + 65536 - s0) % 65536 = c - s0 by omega]
    rw [show (c - s0 + 1) % 65536 = c - s0 + 1 by omega]
    rw [show c - s0 + 1 - (c - s0) = 1 by omega]
    rw [List.range'_one]
    simp only [hmap]
  unfold cmapGlyphRanges
  simp only [hsetup]
  unfold goRanges
  simp only
  unfold lookupLoop
  rw [if_neg (by omega)]
  simp only [hstep]
  have hrest : lookupLoop ⟨1,
      concatEnc [e0] ++ 0 :: 0 :: (concatEnc [s0] ++ (concatEnc [d] ++
        (concatEnc [k] ++ concatEnc gs))),
      concatEnc [s0] ++ (concatEnc [d] ++ (concatEnc [k] ++ concatEnc gs)),
      concatEnc [d] ++ (concatEnc [k] ++ concatEnc gs),
      concatEnc [k] ++ concatEnc gs,
      concatEnc gs⟩ fuel (c + 1) c = some [] := by
    cases fuel with
    | zero => simp [lookupLoop]
    | succ f =>
      unfold lookupLoop
      rw [if_pos (by omega)]
  simp only [hrest]
  have hnil : goRanges ⟨1,
      concatEnc [e0] ++ 0 :: 0 :: (concatEnc [s0] ++ (concatEnc [d] ++
        (concatEnc [k] ++ concatEnc gs))),
      concatEnc [s0] ++ (concatEnc [d] ++ (concatEnc [k] ++ concatEnc gs)),
      concatEnc [d] ++ (concatEnc [k] ++ concatEnc gs),
      concatEnc [k] ++ concatEnc gs,
      concatEnc gs⟩ (fuel + 1) [] = some [] := rfl
  simp only [hnil]
  simp

theorem c2_amended_witness :
    ((10 : Nat) ≤ 65534 ∧ (0 : Nat) ≤ 3 ∧ (3 : Nat) ≤ 10 ∧ (2 : Nat) ≠ 0 ∧
      (1 : Nat) < 65536 ∧ (0 : Nat) < 65536 ∧
      (∀ i, i < ([5, 6, 7, 8, 9, 10] : List Nat).length →
        ([5, 6, 7, 8, 9, 10] : List Nat).getD i 0 < 65536) ∧
      2 + (3 - 0) < ([5, 6, 7, 8, 9, 10] : List Nat).length) ∧
    cmapGlyphRanges (mkCmapTable [10] [0] [1] [2] [5, 6, 7, 8, 9, 10])
      [⟨3, 3⟩] 1 = some [⟨11, 11⟩] := by
  refine ⟨by decide, ?_⟩
  have := c2_amended 10 0 2 1 3 [5, 6, 7, 8, 9, 10] 0 (by decide) (by decide)
    (by decide) (by decide) (by decide) (by decide) (by decide) (by decide)
    (by decide)
  norm_num at this
  exact this

/-- Claim C2 counterexample: one segment `[0, 10]` with
`id_range_offset = 2`, `id_delta = 0`, trailing glyph array
`[7, 8, 9, 1, 1]`.  For codepoint 0 the claim's index
`range_offset/2 + (0 - 0) = 1` selects entry 8, but the code reads
element `range_offset + (0 - 0) = 2`, emitting glyph 9. -/
theorem c2_counterexample :
    cmapGlyphRanges c2CexTable [⟨0, 0⟩] 5 = some [⟨9, 9⟩] ∧
    ([7, 8, 9, 1, 1] : List Nat).getD (2 / 2 + (0 - 0)) 0 = 8 ∧
    some [GlyphRange.mk 9 9] ≠ some [GlyphRange.mk 8 8] := by
  refine ⟨by decide, by decide, by decide⟩

/-- Claim C1 (amended): for requested codepoint ranges confined to
`[0, 0xFFFE]` (each range with `start ≤ end ≤ 0xFFFE`), whenever
`glyph_ranges_for_codepoint_ranges` returns success the total codepoint
count implied by the returned glyph ranges — each range expanded to its
16-bit member count, `MISSING_GLYPH` singletons counting one — equals
the number of requested codepoints.  Ranges reaching 0xFFFF are
excluded: there the 16-bit wrap of the next range start can re-consume
codepoints (see the counterexample). -/
theorem c1_amended (table : List Nat) (ranges : List CodepointRange)
    (fuel : Nat) (res : List GlyphRange)
    (hr : ∀ r ∈ ranges, r.start ≤ r.stop ∧ r.stop ≤ 65534)
    (h : cmapGlyphRanges table ranges fuel = some res) :
    sumCoverage res = sumRequested ranges := by
  unfold cmapGlyphRanges at h
  rcases hs : cmapSetup table with _ | ctx
  · rw [hs] at h
    exact absurd h (by simp)
  · rw [hs] at h
    exact goRanges_coverage ctx ranges fuel res hr h

theorem c1_amended_witness :
    (∀ r ∈ ([⟨2, 5⟩] : List CodepointRange),
      r.start ≤ r.stop ∧ r.stop ≤ 65534) ∧
    sumCoverage [⟨9, 12⟩] = sumRequested [⟨2, 5⟩] :=
  ⟨by decide,
    c1_amended sentinelCmapTable [⟨2, 5⟩] 1 [⟨9, 12⟩] (by decide)
      (by decide)⟩

/-- Claim C1 counterexample: on a table with unsorted segment arrays
the request `[5, 0xFFFF]` succeeds with ranges totalling 131067 covered
codepoints, while only 65531 codepoints were requested: after the match
clipping at end-code 0xFFFF, the next range start wraps to 0 and
codepoints 0..0xFFFE are consumed a second time. -/
theorem c1_counterexample :
    cmapGlyphRanges c1CexTable [⟨5, 65535⟩] 10 =
      some [⟨5, 65535⟩, ⟨0, 65534⟩, ⟨0, 0⟩] ∧
    sumCoverage [⟨5, 65535⟩, ⟨0, 65534⟩, ⟨0, 0⟩] = 131067 ∧
    sumRequested [⟨5, 65535⟩] = 65531 ∧ (131067 : Nat) ≠ 65531 := by
  refine ⟨by decide, by decide, by decide, by decide⟩

theorem wf_chain (es ss : List Nat)
    (hcov : ∀ i, i < es.length → ss.getD i 0 ≤ es.getD i 0)
    (hdisj : ∀ i, i + 1 < es.length → es.getD i 0 < ss.getD (i + 1) 0) :
    ∀ j i, i < j → j < es.length → es.getD i 0 < ss.getD j 0 := by
  intro j
  induction j with
  | zero => omega
  | succ m ih =>
    intro i hij hj
    rcases Nat.lt_or_ge i m with h | h
    · calc es.getD i 0 < ss.getD m 0 := ih i h (by omega)
        _ ≤ es.getD m 0 := hcov m (by omega)
        _ < ss.getD (m + 1) 0 := hdisj m (by omega)
    · have : i = m := by omega
      rw [this]
      exact hdisj m (by omega)

theorem wf_Emono (es ss : List Nat)
    (hcov : ∀ i, i < es.length → ss.getD i 0 ≤ es.getD i 0)
    (hdisj : ∀ i, i + 1 < es.length → es.getD i 0 < ss.getD (i + 1) 0) :
    ∀ i j, i ≤ j → j < es.length → es.getD i 0 ≤ es.getD j 0 := by
  intro i j hij hj
  rcases Nat.lt_or_ge i j with h | h
  · have h1 := wf_chain es ss hcov hdisj j i h hj
    have h2 := hcov j hj
    omega
  · have : i = j := by omega
    rw [this]

theorem wf_Smono (es ss : List Nat)
    (hcov : ∀ i, i < es.length → ss.getD i 0 ≤ es.getD i 0)
    (hdisj : ∀ i, i + 1 < es.length → es.getD i 0 < ss.getD (i + 1) 0) :
    ∀ i j, i ≤ j → j < es.length → ss.getD i 0 ≤ ss.getD j 0 := by
  intro i j hij hj
  rcases Nat.lt_or_ge i j with h | h
  · have h1 := wf_chain es ss hcov hdisj j i h hj
    have h2 := hcov i (by omega)
    omega
  · have : i = j := by omega
    rw [this]

/-- Claim C8 (amended): on a format-4 table with ascending,
non-overlapping segments terminated by the 0xFFFF sentinel end-code,
the binary search locates a codepoint equal to a segment's start-code
or end-code in exactly that segment, and a codepoint covered by no
segment (in particular one below a start-code or one above an end-code
of an isolated segment, and anything just past the BMP) is mapped to a
`MISSING_GLYPH` singleton.  The claim's stronger reading — that the
full query also returns the segment's mapping at the boundary — fails
at the sentinel end-code 0xFFFF itself, where the call diverges (see
the counterexample). -/
theorem c8_amended (es ss ds irs gs : List Nat)
    (hn : 0 < es.length) (hn2 : es.length < 32768)
    (hls : ss.length = es.length) (hld : ds.length = es.length)
    (hli : irs.length = es.length)
    (hvE : ∀ i, i < es.length → es.getD i 0 < 65536)
    (hvS : ∀ i, i < es.length → ss.getD i 0 < 65536)
    (hcov : ∀ i, i < es.length → ss.getD i 0 ≤ es.getD i 0)
    (hdisj : ∀ i, i + 1 < es.length → es.getD i 0 < ss.getD (i + 1) 0)
    (_hsent : es.getD (es.length - 1) 0 = 65535) :
    (∀ ctx, cmapSetup (mkCmapTable es ss ds irs gs) = some ctx →
      ∀ i, i < es.length → ∀ c, c = ss.getD i 0 ∨ c = es.getD i 0 →
        findSegment ctx c = some (some i)) ∧
    (∀ c fuel, c ≤ 65536 →
      (∀ j, j < es.length → ¬ (ss.getD j 0 ≤ c ∧ c ≤ es.getD j 0)) →
      cmapGlyphRanges (mkCmapTable es ss ds irs gs) [⟨c, c⟩] (fuel + 1) =
        some [⟨0, 0⟩]) := by
  have hsetup : cmapSetup (mkCmapTable es ss ds irs gs) =
      some ⟨es.length,
        concatEnc es ++ 0 :: 0 :: (concatEnc ss ++ (concatEnc ds ++
          (concatEnc irs ++ concatEnc gs))),
        concatEnc ss ++ (concatEnc ds ++ (concatEnc irs ++ concatEnc gs)),
        concatEnc ds ++ (concatEnc irs ++ concatEnc gs),
        concatEnc irs ++ concatEnc gs,
        concatEnc gs⟩ := cmapSetup_mk es ss ds irs gs hn2 hls hld hli
  have hE : ∀ j, j < es.length →
      readU16at (concatEnc es ++ 0 :: 0 :: (concatEnc ss ++ (concatEnc ds ++
        (concatEnc irs ++ concatEnc gs)))) j = some (es.getD j 0) := by
    intro j hj
    rw [readU16at_concatEnc es _ j hj, Nat.mod_eq_of_lt (hvE j hj)]
  have hS : ∀ j, j < es.length →
      readU16at (concatEnc ss ++ (concatEnc ds ++
        (concatEnc irs ++ concatEnc gs))) j = some (ss.getD j 0) := by
    intro j hj
    rw [readU16at_concatEnc ss _ j (by omega), Nat.mod_eq_of_lt (hvS j hj)]
  constructor
  · intro ctx hctx i hi c hc
    rw [hsetup] at hctx
    have hctx' := Option.some.inj hctx
    rw [← hctx']
    unfold findSegment
    simp only
    apply bsearchGo_found _ _ (fun j => es.getD j 0) (fun j => ss.getD j 0)
      es.length c hE hS
      (wf_Emono es ss hcov hdisj) (wf_Smono es ss hcov hdisj)
      (fun a b hab hb => wf_chain es ss hcov hdisj b a hab hb)
      i hi
    · rcases hc with hc | hc
      · omega
      · have := hcov i hi
        omega
    · rcases hc with hc | hc
      · have := hcov i hi
        omega
      · omega
    · omega
    · omega
    · omega
    · omega
  · intro c fuel hc hunc
    have hstep : lookupStep ⟨es.length,
        concatEnc es ++ 0 :: 0 :: (concatEnc ss ++ (concatEnc ds ++
          (concatEnc irs ++ concatEnc gs))),
        concatEnc ss ++ (concatEnc ds ++ (concatEnc irs ++ concatEnc gs)),
        concatEnc ds ++ (concatEnc irs ++ concatEnc gs),
        concatEnc irs ++ concatEnc gs,
        concatEnc gs⟩ c c = some ((c + 1) % 4294967296, [⟨0, 0⟩]) := by
      unfold lookupStep
      by_cases hbmp : 65535 < c
      · rw [if_pos hbmp]
      · rw [if_neg hbmp]
        unfold findSegment
        simp only
        rw [bsearchGo_notFound _ _ (fun j => es.getD j 0)
          (fun j => ss.getD j 0) es.length c hE hS
          (fun j hj => hunc j hj) es.length 0 es.length
          (le_refl _) (by omega)]
    unfold cmapGlyphRanges
    simp only [hsetup]
    unfold goRanges
    simp only
    unfold lookupLoop
    rw [if_neg (by omega)]
    simp only [hstep]
    have hmod : (c + 1) % 4294967296 = c + 1 :=
      Nat.mod_eq_of_lt (by omega)
    rw [hmod]
    have hrest : lookupLoop ⟨es.length,
        concatEnc es ++ 0 :: 0 :: (concatEnc ss ++ (concatEnc ds ++
          (concatEnc irs ++ concatEnc gs))),
        concatEnc ss ++ (concatEnc ds ++ (concatEnc irs ++ concatEnc gs)),
        concatEnc ds ++ (concatEnc irs ++ concatEnc gs),
        concatEnc irs ++ concatEnc gs,
        concatEnc gs⟩ fuel (c + 1) c = some [] := by
      cases fuel with
      | zero => simp [lookupLoop]
      | succ f =>
        unfold lookupLoop
        rw [if_pos (by omega)]
    simp only [hrest]
    have hnil : goRanges ⟨es.length,
        concatEnc es ++ 0 :: 0 :: (concatEnc ss ++ (concatEnc ds ++
          (concatEnc irs ++ concatEnc gs))),
        concatEnc ss ++ (concatEnc ds ++ (concatEnc irs ++ concatEnc gs)),
        concatEnc ds ++ (concatEnc irs ++ concatEnc gs),
        concatEnc irs ++ concatEnc gs,
        concatEnc gs⟩ (fuel + 1) [] = some [] := rfl
    simp only [hnil]
    simp

theorem c8_amended_witness :
    ((0 : Nat) < ([10, 65535] : List Nat).length ∧
      (∀ i, i < ([10, 65535] : List Nat).length →
        ([3, 100] : List Nat).getD i 0 ≤ ([10, 65535] : List Nat).getD i 0) ∧
      (∀ i, i + 1 < ([10, 65535] : List Nat).length →
        ([10, 65535] : List Nat).getD i 0 <
          ([3, 100] : List Nat).getD (i + 1) 0) ∧
      ([10, 65535] : List Nat).getD 1 0 = 65535) ∧
    findSegment ⟨2, [0, 10, 255, 255, 0, 0, 0, 3, 0, 100, 0, 1, 0, 2, 0, 0,
        0, 0], [0, 3, 0, 100, 0, 1, 0, 2, 0, 0, 0, 0],
      [0, 1, 0, 2, 0, 0, 0, 0], [0, 0, 0, 0], []⟩ 10 = some (some 0) ∧
    cmapGlyphRanges (mkCmapTable [10, 65535] [3, 100] [1, 2] [0, 0] [])
      [⟨2, 2⟩] 1 = some [⟨0, 0⟩] := by
  have hcov0 : ∀ i, i < ([10, 65535] : List Nat).length →
      ([3, 100] : List Nat).getD i 0 ≤ ([10, 65535] : List Nat).getD i 0 := by
    intro i hi
    have hi2 : i < 2 := by simpa using hi
    interval_cases i <;> decide
  have hdisj0 : ∀ i, i + 1 < ([10, 65535] : List Nat).length →
      ([10, 65535] : List Nat).getD i 0 <
        ([3, 100] : List Nat).getD (i + 1) 0 := by
    intro i hi
    have hi2 : i + 1 < 2 := by simpa using hi
    have h0 : i = 0 := by omega
    subst h0
    decide
  have hvE0 : ∀ i, i < ([10, 65535] : List Nat).length →
      ([10, 65535] : List Nat).getD i 0 < 65536 := by
    intro i hi
    have hi2 : i < 2 := by simpa using hi
    interval_cases i <;> decide
  have hvS0 : ∀ i, i < ([10, 65535] : List Nat).length →
      ([3, 100] : List Nat).getD i 0 < 65536 := by
    intro i hi
    have hi2 : i < 2 := by simpa using hi
    interval_cases i <;> decide
  refine ⟨⟨by decide, hcov0, hdisj0, by decide⟩, ?_, ?_⟩
  · exact (c8_amended [10, 65535] [3, 100] [1, 2] [0, 0] []
      (by decide) (by decide) (by decide) (by decide) (by decide)
      hvE0 hvS0 hcov0 hdisj0 (by decide)).1
      ⟨2, [0, 10, 255, 255, 0, 0, 0, 3, 0, 100, 0, 1, 0, 2, 0, 0, 0, 0],
        [0, 3, 0, 100, 0, 1, 0, 2, 0, 0, 0, 0], [0, 1, 0, 2, 0, 0, 0, 0],
        [0, 0, 0, 0], []⟩
      (by decide) 0 (by decide) 10 (Or.inr (by decide))
  · exact (c8_amended [10, 65535] [3, 100] [1, 2] [0, 0] []
      (by decide) (by decide) (by decide) (by decide) (by decide)
      hvE0 hvS0 hcov0 hdisj0 (by decide)).2
      2 0 (by decide) (by
        intro j hj
        have hj2 : j < 2 := by simpa using hj
        interval_cases j <;> decide)

/-- Claim C8 counterexample: on the well-formed single-segment table
`[0, 0xFFFF]` with `id_delta = 2` (sentinel end-code 0xFFFF), the
codepoint 0xFFFF equal to the segment's end-code is not mapped by that
segment: the call returns nothing (fuel 50 shown; the looping step
from start 0 back to start 0 shows no fuel suffices), instead of the
segment's mapping `[(0xFFFF + 2) mod 2^16]`. -/
theorem c8_counterexample :
    cmapGlyphRanges (mkCmapTable [65535] [0] [2] [0] []) [⟨65535, 65535⟩]
      50 = none ∧
    lookupStep ⟨1, [255, 255, 0, 0, 0, 0, 0, 2, 0, 0], [0, 0, 0, 2, 0, 0],
      [0, 2, 0, 0], [0, 0], []⟩ 0 65535 = some (0, [⟨2, 1⟩]) ∧
    (none : Option (List GlyphRange)) ≠ some [⟨1, 1⟩] := by
  refine ⟨by decide, by decide, by decide⟩

/-- Claim C3 counterexample: both stored points off-curve, the first at
absolute position `(-1, -1)` and the second at `(0, 0)` (delta
`(1, 1)`).  The synthesized point is emitted at `(-1, -1)` — the
previous position plus the truncated half-delta — while the claim's
formula `trunc((Px + Qx)/2)` gives `0` per axis. -/
theorem c3_counterexample :
    runForEachPoint (offCurvePairGlyf 1 1 1 1) locaZero 0 =
      ([⟨-1, -1, false, true⟩, ⟨-1, -1, true, false⟩,
        ⟨0, 0, false, false⟩, ⟨-1, -1, true, false⟩], true) ∧
    Int.tdiv (-1 + 0) 2 = 0 ∧ (-1 : Int) ≠ 0 := by
  refine ⟨by decide, by decide, by decide⟩

theorem wrap16_small (z : Int) (h1 : -32768 ≤ z) (h2 : z ≤ 32767) :
    wrap16 z = z := by
  unfold wrap16
  omega

theorem tdiv_cast_two (n : Nat) : Int.tdiv (n : Int) 2 = ((n / 2 : Nat) : Int) :=
  rfl

/-- Claim C3 (amended): between two consecutive off-curve points the
extractor synthesizes an on-curve point at the previous absolute
position plus half of the coordinate delta, each axis halved with the
same truncating integer division used for the deltas — i.e. at
`P + (Q−P)/2`, the midpoint rounded toward `P` — and not at the
truncating division of the coordinate sum `(Px+Qx)/2`, which differs
when an axis delta is odd and the positions straddle zero.  Shown on a
two-point contour with first deltas `(-x1, -y1)` and second deltas
`(x2, y2)`. -/
theorem c3_amended (x1 y1 x2 y2 : Nat)
    (h1 : x1 ≤ 255) (h2 : y1 ≤ 255) (h3 : x2 ≤ 255) (h4 : y2 ≤ 255) :
    runForEachPoint (offCurvePairGlyf x1 y1 x2 y2) locaZero 0 =
      ([⟨-(x1 : Int), -(y1 : Int), false, true⟩,
        ⟨-(x1 : Int) + Int.tdiv (x2 : Int) 2,
          -(y1 : Int) + Int.tdiv (y2 : Int) 2, true, false⟩,
        ⟨-(x1 : Int) + (x2 : Int), -(y1 : Int) + (y2 : Int), false, false⟩,
        ⟨-(x1 : Int), -(y1 : Int), true, false⟩], true) := by
  have hsh : offCurvePairGlyf x1 y1 x2 y2 = 0 :: 1 :: 0 :: 0 :: 0 :: 0 ::
      0 :: 0 :: 0 :: 0 :: 0 :: 1 :: 0 :: 0 :: 6 :: 54 :: x1 :: x2 :: y1 ::
      y2 :: [] := by
    simp only [offCurvePairGlyf, List.cons_append, List.nil_append]
  rw [hsh]
  have hloca : locaZero 0 = some 0 := rfl
  have hj0 : jump (0 :: 1 :: 0 :: 0 :: 0 :: 0 :: 0 :: 0 :: 0 :: 0 :: 0 ::
      1 :: 0 :: 0 :: 6 :: 54 :: x1 :: x2 :: y1 :: y2 :: []) 0 =
      some (0 :: 1 :: 0 :: 0 :: 0 :: 0 :: 0 :: 0 :: 0 :: 0 :: 0 :: 1 :: 0 ::
        0 :: 6 :: 54 :: x1 :: x2 :: y1 :: y2 :: []) := jump_zero _
  have hri : readI16 (0 :: 1 :: 0 :: 0 :: 0 :: 0 :: 0 :: 0 :: 0 :: 0 :: 0 ::
      1 :: 0 :: 0 :: 6 :: 54 :: x1 :: x2 :: y1 :: y2 :: []) =
      some (1, 0 :: 0 :: 0 :: 0 :: 0 :: 0 :: 0 :: 0 :: 0 :: 1 :: 0 :: 0 ::
        6 :: 54 :: x1 :: x2 :: y1 :: y2 :: []) := rfl
  have hrec : glyfRecord (0 :: 1 :: 0 :: 0 :: 0 :: 0 :: 0 :: 0 :: 0 :: 0 ::
      0 :: 1 :: 0 :: 0 :: 6 :: 54 :: x1 :: x2 :: y1 :: y2 :: []) locaZero 0 =
      some (1, 0 :: 0 :: 0 :: 0 :: 0 :: 0 :: 0 :: 0 :: 0 :: 1 :: 0 :: 0 ::
        6 :: 54 :: x1 :: x2 :: y1 :: y2 :: []) := by
    unfold glyfRecord
    simp only [hloca, hj0, hri]
  have hj8 : jump (0 :: 0 :: 0 :: 0 :: 0 :: 0 :: 0 :: 0 :: 0 :: 1 :: 0 ::
      0 :: 6 :: 54 :: x1 :: x2 :: y1 :: y2 :: []) 8 =
      some (0 :: 1 :: 0 :: 0 :: 6 :: 54 :: x1 :: x2 :: y1 :: y2 :: []) := by
    simp only [jump_cons_succ, jump_zero]
  have husz : usizeMod (2 * usizeMod (Int.toNat 1 + 18446744073709551615)) =
      0 := by
    norm_num [usizeMod]
  have hru1 : readU16 (0 :: 1 :: 0 :: 0 :: 6 :: 54 :: x1 :: x2 :: y1 ::
      y2 :: []) = some (1, 0 :: 0 :: 6 :: 54 :: x1 :: x2 :: y1 :: y2 :: []) :=
    rfl
  have hru2 : readU16 (0 :: 0 :: 6 :: 54 :: x1 :: x2 :: y1 :: y2 :: []) =
      some (0, 6 :: 54 :: x1 :: x2 :: y1 :: y2 :: []) := rfl
  have hcalc : calcXLen 0 ((1 + 1) % 65536)
      (6 :: 54 :: x1 :: x2 :: y1 :: y2 :: []) =
      some (2, x1 :: x2 :: y1 :: y2 :: []) := rfl
  have hparser : flagParserNew (6 :: 54 :: x1 :: x2 :: y1 :: y2 :: []) =
      some ⟨54 :: x1 :: x2 :: y1 :: y2 :: [], 6, 0⟩ := rfl
  have hjx : jump (x1 :: x2 :: y1 :: y2 :: []) 2 =
      some (y1 :: y2 :: []) := by
    rw [show (2 : Nat) = 0 + 2 from rfl, jump_cons2, jump_zero]
  have hstr : glyfStreams 1 (0 :: 0 :: 0 :: 0 :: 0 :: 0 :: 0 :: 0 :: 0 ::
      1 :: 0 :: 0 :: 6 :: 54 :: x1 :: x2 :: y1 :: y2 :: []) =
      some (0 :: 1 :: 0 :: 0 :: 6 :: 54 :: x1 :: x2 :: y1 :: y2 :: [],
        ⟨⟨54 :: x1 :: x2 :: y1 :: y2 :: [], 6, 0⟩,
          x1 :: x2 :: y1 :: y2 :: [], y1 :: y2 :: [], 0, 0, 0⟩) := by
    unfold glyfStreams
    simp only [hj8, husz, jump_zero, hru1, hru2, hcalc, hparser, hjx]
  unfold runForEachPoint
  simp only [hrec, hstr]
  rw [if_neg (by norm_num)]
  rw [show Int.toNat 1 = 1 from rfl]
  unfold contourLoop
  simp only [hru1]
  rw [show (((1 + 65536 - 0 % 65536) % 65536 + 1) % 65536 : Nat) = 2 by
    norm_num]
  have hpn0 : flagParserNext ⟨54 :: x1 :: x2 :: y1 :: y2 :: [], 6, 0⟩ =
      some ⟨x1 :: x2 :: y1 :: y2 :: [], 54, 0⟩ := rfl
  have hd1x : readDelta true false (x1 :: x2 :: y1 :: y2 :: []) =
      some (-(x1 : Int), x2 :: y1 :: y2 :: []) := rfl
  have hd1y : readDelta true false (y1 :: y2 :: []) =
      some (-(y1 : Int), y2 :: []) := rfl
  have hd2x : readDelta true true (x2 :: y1 :: y2 :: []) =
      some ((x2 : Int), y1 :: y2 :: []) := rfl
  have hd2y : readDelta true true (y2 :: []) =
      some ((y2 : Int), []) := rfl
  have hb60 : Nat.testBit 6 0 = false := by decide
  have hb61 : Nat.testBit 6 1 = true := by decide
  have hb62 : Nat.testBit 6 2 = true := by decide
  have hb64 : Nat.testBit 6 4 = false := by decide
  have hb65 : Nat.testBit 6 5 = false := by decide
  have hb540 : Nat.testBit 54 0 = false := by decide
  have hb541 : Nat.testBit 54 1 = true := by decide
  have hb542 : Nat.testBit 54 2 = true := by decide
  have hb544 : Nat.testBit 54 4 = true := by decide
  have hb545 : Nat.testBit 54 5 = true := by decide
  by_cases hb : Nat.testBit x1 3
  · have hpn1 : flagParserNext ⟨x1 :: x2 :: y1 :: y2 :: [], 54, 0⟩ =
        some ⟨y1 :: y2 :: [], x1, x2⟩ := by
      simp [flagParserNext, hb]
    have hpl : pointLoop 2 0 ⟨⟨54 :: x1 :: x2 :: y1 :: y2 :: [], 6, 0⟩,
        x1 :: x2 :: y1 :: y2 :: [], y1 :: y2 :: [], 0, 0, 0⟩ (0, 0) false =
        ([⟨wrap16 (0 + -(x1 : Int)), wrap16 (0 + -(y1 : Int)), false, true⟩,
          ⟨wrap16 (wrap16 (0 + -(x1 : Int)) + Int.tdiv (x2 : Int) 2),
            wrap16 (wrap16 (0 + -(y1 : Int)) + Int.tdiv (y2 : Int) 2),
            true, false⟩,
          ⟨wrap16 (wrap16 (0 + -(x1 : Int)) + (x2 : Int)),
            wrap16 (wrap16 (0 + -(y1 : Int)) + (y2 : Int)), false, false⟩],
          some (⟨⟨y1 :: y2 :: [], x1, x2⟩, y1 :: y2 :: [], [],
            wrap16 (wrap16 (0 + -(x1 : Int)) + (x2 : Int)),
            wrap16 (wrap16 (0 + -(y1 : Int)) + (y2 : Int)), 2⟩,
            (wrap16 (0 + -(x1 : Int)), wrap16 (0 + -(y1 : Int))))) := by
      simp only [pointLoop, hpn0, hpn1, hb60, hb61, hb62, hb64, hb65,
        hb540, hb541, hb542, hb544, hb545, hd1x, hd1y, hd2x, hd2y]
      norm_num
    rw [hpl]
    simp only
    rw [show contourLoop 0 (0 :: 0 :: 6 :: 54 :: x1 :: x2 :: y1 :: y2 :: [])
        ⟨⟨y1 :: y2 :: [], x1, x2⟩, y1 :: y2 :: [], [],
          wrap16 (wrap16 (0 + -(x1 : Int)) + (x2 : Int)),
          wrap16 (wrap16 (0 + -(y1 : Int)) + (y2 : Int)), 2⟩ =
        ([], true) from rfl]
    simp only [tdiv_cast_two, Prod.mk.injEq, List.cons_append,
      List.nil_append, List.cons.injEq, GPoint.mk.injEq, and_true]
    refine ⟨⟨?_, ?_⟩, ⟨?_, ?_⟩, ⟨?_, ?_⟩, ⟨?_, ?_⟩⟩ <;>
      (unfold wrap16; omega)
  · have hpn1 : flagParserNext ⟨x1 :: x2 :: y1 :: y2 :: [], 54, 0⟩ =
        some ⟨x2 :: y1 :: y2 :: [], x1, 0⟩ := by
      simp [flagParserNext, hb]
    have hpl : pointLoop 2 0 ⟨⟨54 :: x1 :: x2 :: y1 :: y2 :: [], 6, 0⟩,
        x1 :: x2 :: y1 :: y2 :: [], y1 :: y2 :: [], 0, 0, 0⟩ (0, 0) false =
        ([⟨wrap16 (0 + -(x1 : Int)), wrap16 (0 + -(y1 : Int)), false, true⟩,
          ⟨wrap16 (wrap16 (0 + -(x1 : Int)) + Int.tdiv (x2 : Int) 2),
            wrap16 (wrap16 (0 + -(y1 : Int)) + Int.tdiv (y2 : Int) 2),
            true, false⟩,
          ⟨wrap16 (wrap16 (0 + -(x1 : Int)) + (x2 : Int)),
            wrap16 (wrap16 (0 + -(y1 : Int)) + (y2 : Int)), false, false⟩],
          some (⟨⟨x2 :: y1 :: y2 :: [], x1, 0⟩, y1 :: y2 :: [], [],
            wrap16 (wrap16 (0 + -(x1 : Int)) + (x2 : Int)),
            wrap16 (wrap16 (0 + -(y1 : Int)) + (y2 : Int)), 2⟩,
            (wrap16 (0 + -(x1 : Int)), wrap16 (0 + -(y1 : Int))))) := by
      simp only [pointLoop, hpn0, hpn1, hb60, hb61, hb62, hb64, hb65,
        hb540, hb541, hb542, hb544, hb545, hd1x, hd1y, hd2x, hd2y]
      norm_num
    rw [hpl]
    simp only
    rw [show contourLoop 0 (0 :: 0 :: 6 :: 54 :: x1 :: x2 :: y1 :: y2 :: [])
        ⟨⟨x2 :: y1 :: y2 :: [], x1, 0⟩, y1 :: y2 :: [], [],
          wrap16 (wrap16 (0 + -(x1 : Int)) + (x2 : Int)),
          wrap16 (wrap16 (0 + -(y1 : Int)) + (y2 : Int)), 2⟩ =
        ([], true) from rfl]
    simp only [tdiv_cast_two, Prod.mk.injEq, List.cons_append,
      List.nil_append, List.cons.injEq, GPoint.mk.injEq, and_true]
    refine ⟨⟨?_, ?_⟩, ⟨?_, ?_⟩, ⟨?_, ?_⟩, ⟨?_, ?_⟩⟩ <;>
      (unfold wrap16; omega)

/-- Witness for C3 (amended) at the concrete two-point contour with
deltas `(-3, -5)` then `(7, 9)`: the synthesized midpoint lands at
`(-3 + 3, -5 + 4) = (0, -1)`. -/
theorem c3_amended_witness :
    (3 : Nat) ≤ 255 ∧ (5 : Nat) ≤ 255 ∧ (7 : Nat) ≤ 255 ∧ (9 : Nat) ≤ 255 ∧
    runForEachPoint (offCurvePairGlyf 3 5 7 9) locaZero 0 =
      ([⟨-((3 : Nat) : Int), -((5 : Nat) : Int), false, true⟩,
        ⟨-((3 : Nat) : Int) + Int.tdiv ((7 : Nat) : Int) 2,
          -((5 : Nat) : Int) + Int.tdiv ((9 : Nat) : Int) 2, true, false⟩,
        ⟨-((3 : Nat) : Int) + ((7 : Nat) : Int),
          -((5 : Nat) : Int) + ((9 : Nat) : Int), false, false⟩,
        ⟨-((3 : Nat) : Int), -((5 : Nat) : Int), true, false⟩], true) :=
  ⟨by decide, by decide, by decide, by decide,
    c3_amended 3 5 7 9 (by decide) (by decide) (by decide) (by decide)⟩
